import Mathlib

/-!
Verification development for the incremental change-detection and job-orchestration
core of the langup-report-workflow repository.

Part A embeds `src/src/cache_manager.py` (classes `FileCache`,
`DatabaseVersionManager` and `IncrementalScanner`): the local cache store, the
version ledger interface and the incremental reconciliation pass.

Part B embeds `src/client/src/ocr_task_manager.py` (class `OCRTaskManager`):
the task table, the lock set and the submit / monitor-commit / cancel /
cleanup / start / stop operations, as a trace-based transition system.

Machine conventions of the embedding:
* `datetime` values are modelled by the structure `DT` carrying the calendar
  year and an opaque remainder; `datetime.fromtimestamp` is the identity
  because `Stat` already stores timestamps in that form.
* the md5 hex digest in `FileCache.get_file_hash` is consulted only through
  string equality, so it is modelled by an injective tagged encoding `md5hex`
  (never the empty string, exactly like a real 32-character hex digest).
* the filesystem is an explicit oracle `FS : String -> Option Stat`
  (`none` models an `os.stat` failure for that path).
-/

/-- A `datetime` value: its calendar year plus an opaque sub-year remainder. -/
structure DT where
  year : Int
  sub : Int
deriving DecidableEq, Repr

/-- Result of a successful `os.stat` call: modification, creation and access
times plus the size in bytes. -/
structure Stat where
  st_mtime : DT
  st_size : Nat
  st_ctime : DT
  st_atime : DT
deriving DecidableEq, Repr

/-- The filesystem oracle: `none` means `os.stat` raises for that path. -/
def FS : Type := String → Option Stat

/-- String encoding of a `DT`, standing for Python's `str()` of the time value. -/
def encodeDT (d : DT) : String :=
  toString d.year ++ "." ++ toString d.sub

/-- The md5 hex digest, modelled as an injective tagged encoding; only
equality of digests is ever consulted by the source, and a real hex digest is
never the empty string, which the tag preserves. -/
def md5hex (s : String) : String :=
  "h!" ++ s

/-- `round(stat.st_size / (1024 * 1024), 2)` modelled in hundredths of a
megabyte (half-up rounding; the value is only passed through, never inspected). -/
def fileSizeMb100 (bytes : Nat) : Nat :=
  (bytes * 100 + 524288) / 1048576

/-- The characters after the last occurrence of `sep`, or `none` when `sep`
does not occur. -/
def afterLast (sep : Char) : List Char → Option (List Char)
  | [] => none
  | c :: cs =>
      match afterLast sep cs with
      | some s => some s
      | none => if c = sep then some cs else none

/-- ASCII lower-casing of one character (`str.lower` on the extension). -/
def lowerChar (c : Char) : Char :=
  if 'A' ≤ c ∧ c ≤ 'Z' then Char.ofNat (c.toNat + 32) else c

/-- `os.path.splitext(file_path)[1].lower()`: the extension starting at the
last dot, lower-cased, empty when the path has no dot (the leading-dot and
directory-separator corner cases of `splitext` are not modelled; no claim
depends on them). -/
def extOf (p : String) : String :=
  match afterLast '.' p.data with
  | none => ""
  | some s => String.mk ('.' :: s.map lowerChar)

/-- `os.path.basename`, modelled on forward-slash separated paths. -/
def baseName (p : String) : String :=
  match afterLast '/' p.data with
  | none => p
  | some s => String.mk s

/-- The per-file metadata record built by `IncrementalScanner._get_file_info`
and stored by `FileCache.update_file_cache` (the known fields of the metadata
dictionary). -/
structure FileInfo where
  file_name : String
  file_path : String
  file_size_mb : Nat
  creation_date : DT
  modification_date : DT
  access_date : DT
  extension : String
  category : String
  importance : String
  tags : String
  notes : String
  status : String
  hash : String
  cached_at : Option DT
deriving DecidableEq, Repr

/-- `FileCache.cache_data`: the path-keyed file table, the last-scan stamp and
the schema version tag. -/
structure CacheData where
  files : List (String × FileInfo)
  last_scan : Option DT
  version : String
deriving DecidableEq, Repr

/-- The fresh `cache_data` value built in `FileCache.__init__` (and on load
failure). -/
def emptyCacheData : CacheData :=
  { files := [], last_scan := none, version := "1.0" }

/-- Outcome of opening and unpickling the cache file in `FileCache.load_cache`:
the file may be absent, may fail to deserialize (any exception), or may yield
a table. -/
inductive LoadOutcome where
  | missing : LoadOutcome
  | corrupt : LoadOutcome
  | ok : CacheData → LoadOutcome
deriving DecidableEq, Repr

/-- `FileCache.load_cache`: keeps the prior in-memory table when the file is
missing, resets to the empty table when deserialization raises, and installs
the deserialized table wholesale otherwise (no version check is performed). -/
def load_cache (prior : CacheData) : LoadOutcome → CacheData
  | .missing => prior
  | .corrupt => emptyCacheData
  | .ok d => d

/-- `FileCache.get_file_hash`: digest of `f"{st_mtime}_{st_size}_{file_path}"`,
or the empty string when `os.stat` raises. -/
def get_file_hash (fs : FS) (file_path : String) : String :=
  match fs file_path with
  | none => ""
  | some st => md5hex (encodeDT st.st_mtime ++ "_" ++ toString st.st_size ++ "_" ++ file_path)

/-- `self.cache_data['files'].get(file_path, {}).get('hash', '')`. -/
def cachedHash (files : List (String × FileInfo)) (file_path : String) : String :=
  match files.lookup file_path with
  | none => ""
  | some info => info.hash

/-- `FileCache.is_file_changed`: recomputed digest differs from the cached one. -/
def is_file_changed (files : List (String × FileInfo)) (fs : FS) (file_path : String) : Bool :=
  get_file_hash fs file_path ≠ cachedHash files file_path

/-- Store-or-overwrite for a path-keyed association list (Python dict
assignment: replaces in place when the key exists, appends otherwise). -/
def setEntry {α : Type} (files : List (String × α)) (key : String) (v : α) :
    List (String × α) :=
  if files.any (fun kv => kv.1 = key) then
    files.map (fun kv => if kv.1 = key then (key, v) else kv)
  else
    files ++ [(key, v)]

/-- `FileCache.update_file_cache`: recomputes the digest for the live file,
stamps `cached_at`, and stores the record under the path. -/
def update_file_cache (fs : FS) (now : DT) (files : List (String × FileInfo))
    (file_path : String) (info : FileInfo) : List (String × FileInfo) :=
  setEntry files file_path { info with hash := get_file_hash fs file_path, cached_at := some now }

/-- `FileCache.remove_file_cache`: drops the entry when present. -/
def remove_file_cache (files : List (String × FileInfo)) (file_path : String) :
    List (String × FileInfo) :=
  if files.any (fun kv => kv.1 = file_path) then
    files.filter (fun kv => kv.1 ≠ file_path)
  else files

/-- `IncrementalScanner._get_file_info`: stats the file and builds the
metadata record, `none` when `os.stat` raises (the source then returns the
empty dict, which fails every downstream field lookup). -/
def getFileInfo (fs : FS) (file_path : String) : Option FileInfo :=
  (fs file_path).map fun st =>
    { file_name := baseName file_path
      file_path := file_path
      file_size_mb := fileSizeMb100 st.st_size
      creation_date := st.st_ctime
      modification_date := st.st_mtime
      access_date := st.st_atime
      extension := extOf file_path
      category := ""
      importance := ""
      tags := ""
      notes := ""
      status := "new"
      hash := ""
      cached_at := none }

/-- `IncrementalScanner._is_current_year_file`: any of the creation,
modification or access dates falls in the scanner's current year. -/
def isCurrentYearFile (current_year : Int) (info : FileInfo) : Bool :=
  info.creation_date.year = current_year ∨ info.modification_date.year = current_year ∨
    info.access_date.year = current_year

/-- `IncrementalScanner._get_current_files`: collects every walked file into a
set; note that no extension filter is applied. Modelled as first-occurrence
deduplication of the walk output. -/
def getCurrentFiles (walked : List String) : List String :=
  walked.foldl (fun acc p => if p ∈ acc then acc else acc ++ [p]) []

/-- Accumulator of the first loop of `IncrementalScanner.scan_incremental`:
the three on-disk buckets plus the live cache table it mutates. -/
structure ScanAcc where
  new_files : List FileInfo
  updated_files : List FileInfo
  unchanged_files : List FileInfo
  cache : List (String × FileInfo)
deriving DecidableEq, Repr

/-- One iteration of the first loop of `scan_incremental`: classify `p` as
new / updated / unchanged, consulting and mutating the live cache table. -/
def classifyStep (fs : FS) (current_year : Int) (now : DT) (acc : ScanAcc) (p : String) :
    ScanAcc :=
  match acc.cache.lookup p with
  | none =>
      match getFileInfo fs p with
      | none => acc
      | some info =>
          if isCurrentYearFile current_year info then
            { acc with new_files := acc.new_files ++ [info],
                       cache := update_file_cache fs now acc.cache p info }
          else acc
  | some cachedInfo =>
      if is_file_changed acc.cache fs p then
        match getFileInfo fs p with
        | none => acc
        | some info =>
            if isCurrentYearFile current_year info then
              { acc with updated_files := acc.updated_files ++ [info],
                         cache := update_file_cache fs now acc.cache p info }
            else acc
      else
        if isCurrentYearFile current_year cachedInfo then
          { acc with unchanged_files := acc.unchanged_files ++ [cachedInfo] }
        else acc

/-- The deletion loop of `scan_incremental` iterates the live cache dict
while `remove_file_cache` deletes from the very same dict. CPython's dict
iterator raises `RuntimeError: dictionary changed size during iteration` at
the first step after any deletion (even when the removed key was the last
one), so the loop either completes having removed nothing — every cached key
is still on disk — or it appends the first vanished key (in dict order) to
the local `deleted_files`, removes it from the table, and then raises. The
error value carries that key together with the mutated table. -/
def deleteLoop (current : List String) :
    List String → List (String × FileInfo) →
    Except (String × List (String × FileInfo)) (List (String × FileInfo))
  | [], cache => .ok cache
  | p :: ps, cache =>
      if p ∈ current then deleteLoop current ps cache
      else .error (p, remove_file_cache cache p)

/-- One row of the `file_versions` ledger table as written by
`DatabaseVersionManager.update_file_version`. -/
structure UpsertRow where
  file_path : String
  file_hash : String
  file_size_mb : Nat
  modification_date : DT
  status : String
deriving DecidableEq, Repr

/-- `IncrementalScanner._update_database_versions`: one ledger upsert per new
file with status "new", then one per updated file with status "updated". -/
def update_database_versions (fs : FS) (news updates : List FileInfo) : List UpsertRow :=
  news.map (fun i =>
    ⟨i.file_path, get_file_hash fs i.file_path, i.file_size_mb, i.modification_date, "new"⟩) ++
  updates.map (fun i =>
    ⟨i.file_path, get_file_hash fs i.file_path, i.file_size_mb, i.modification_date, "updated"⟩)

/-- Effect of a sequence of ledger upserts on the ledger table:
`INSERT ... ON DUPLICATE KEY UPDATE` keyed by `file_path` (there is no ledger
delete operation anywhere in the source). -/
def apply_upserts (ledger : List (String × UpsertRow)) (ups : List UpsertRow) :
    List (String × UpsertRow) :=
  ups.foldl (fun l u => setEntry l u.file_path u) ledger

/-- The value returned by a completing `scan_incremental` pass, together
with the post-pass cache table and the ledger upserts issued during the
pass. A pass completes only when the deletion loop removed nothing, so
`deleted_files` is always empty here (see `deleteLoop`). -/
structure ScanResult where
  new_files : List FileInfo
  updated_files : List FileInfo
  unchanged_files : List FileInfo
  deleted_files : List String
  total_files : Nat
  scan_time : DT
  cache : CacheData
  upserts : List UpsertRow
deriving DecidableEq, Repr

/-- The `RuntimeError` escaping `scan_incremental` when a cached file has
vanished from disk: `first_deleted` is the single path the loop appended to
its local `deleted_files` before raising, and `cache` is the in-memory table
at that moment (the entry already removed). `_update_database_versions` and
`save_cache` never run on this path — no ledger upsert is issued and the
cache file is not written. -/
structure ScanCrash where
  first_deleted : String
  cache : List (String × FileInfo)
deriving DecidableEq, Repr

/-- `IncrementalScanner.scan_incremental`: enumerate the current files,
classify each against the cache, then run the deletion sweep. The sweep
raises out of the whole pass as soon as any cached path has vanished (see
`deleteLoop`), so a returned result always has `deleted_files = []`; when
the sweep completes, the ledger upserts are issued and the cache is saved
(stamping `last_scan`). -/
def scan_incremental (fs : FS) (current_year : Int) (now : DT)
    (walked : List String) (cache0 : CacheData) : Except ScanCrash ScanResult :=
  let current := getCurrentFiles walked
  let acc := current.foldl (classifyStep fs current_year now)
    { new_files := [], updated_files := [], unchanged_files := [], cache := cache0.files }
  match deleteLoop current (acc.cache.map Prod.fst) acc.cache with
  | .error (k, cache1) => .error ⟨k, cache1⟩
  | .ok cache2 =>
      let ups := update_database_versions fs acc.new_files acc.updated_files
      .ok { new_files := acc.new_files
            updated_files := acc.updated_files
            unchanged_files := acc.unchanged_files
            deleted_files := []
            total_files := acc.new_files.length + acc.updated_files.length +
              acc.unchanged_files.length
            scan_time := now
            cache := { files := cache2, last_scan := some now, version := cache0.version }
            upserts := ups }

/-! ## Part B: the task orchestrator (`src/client/src/ocr_task_manager.py`)

The orchestrator is embedded as a transition system. A state carries the task
table, the lock set, the executor/shutdown flags of the manager, and the set
of task ids that have a dispatched worker with a live monitor thread; an event
is one orchestrator operation (or the asynchronous commit performed by one
monitor thread when its worker outcome arrives). Wall-clock readings and
Python's salted string hash are environment inputs carried on the events.
Messages are abstract ASCII stand-ins for the source's literal strings. -/

/-- `TaskStatus` of `ocr_task_manager.py`. -/
inductive TaskStatus where
  | pending
  | running
  | completed
  | failed
  | cancelled
deriving DecidableEq, Repr

/-- An `OCRTask` row. `progress` is only ever assigned `0.0` or `1.0` by the
source, modelled as `0` and `1`; `result` is the opaque worker payload. -/
structure OCRTask where
  task_id : String
  file_path : String
  file_type : String
  status : TaskStatus
  progress : Nat
  message : String
  result : Option String
  error : Option String
  start_time : Option Int
  end_time : Option Int
  worker_id : Option Nat
deriving DecidableEq, Repr

/-- Orchestrator state: task table (dict, insertion-ordered), lock set,
executor and shutdown flags, and the ids with an outstanding monitor thread. -/
structure MgrState where
  tasks : List (String × OCRTask)
  locked_files : List String
  executor_up : Bool
  shutdown : Bool
  monitors : List String
deriving DecidableEq, Repr

/-- The freshly constructed `OCRTaskManager`. -/
def mgrInit : MgrState :=
  { tasks := [], locked_files := [], executor_up := false, shutdown := false, monitors := [] }

/-- `OCRTaskManager.is_file_locked`. -/
def is_file_locked (s : MgrState) (p : String) : Bool :=
  p ∈ s.locked_files

/-- `OCRTaskManager.lock_file` on the lock set: add unless present. -/
def lock_file (locked : List String) (p : String) : List String :=
  if p ∈ locked then locked else locked ++ [p]

/-- `OCRTaskManager.unlock_file` on the lock set: `set.discard`. -/
def unlock_file (locked : List String) (p : String) : List String :=
  locked.filter (fun q => q ≠ p)

/-- The two synchronous failures of `submit_task`: the shutdown guard
(`RuntimeError`) and the already-locked guard (`ValueError`). -/
inductive SubmitErr where
  | shutdownErr
  | alreadyLocked
deriving DecidableEq, Repr

/-- `f"{int(time.time() * 1000)}_{hash(file_path) % 10000}"`; `nowMs` is the
millisecond clock reading and `pyHash` the salted Python hash of the path
(Python `%` on a positive modulus is `Int.emod`). -/
def genTaskId (nowMs pyHash : Int) : String :=
  toString nowMs ++ "_" ++ toString (pyHash.emod 10000)

/-- The `OCRTask` constructed inside `submit_task`. -/
def mkPendingTask (tid p ft : String) : OCRTask :=
  { task_id := tid, file_path := p, file_type := ft, status := .pending, progress := 0,
    message := "waiting", result := none, error := none, start_time := none,
    end_time := none, worker_id := none }

/-- Point update of one task row (the source mutates the row object aliased
by the dict entry). -/
def updateTask (tasks : List (String × OCRTask)) (tid : String) (f : OCRTask → OCRTask) :
    List (String × OCRTask) :=
  tasks.map (fun kv => if kv.1 = tid then (kv.1, f kv.2) else kv)

/-- The guarded creation phase of `OCRTaskManager.submit_task` (everything up
to the `self.lock_file` call): shutdown guard, lock guard, task id generation,
row insertion (dict assignment: replaces on id collision) and file locking. -/
def submit_core (s : MgrState) (p ft : String) (nowMs pyHash : Int) :
    Except SubmitErr (String × MgrState) :=
  if s.shutdown then .error .shutdownErr
  else if is_file_locked s p then .error .alreadyLocked
  else
    let tid := genTaskId nowMs pyHash
    .ok (tid, { s with tasks := setEntry s.tasks tid (mkPendingTask tid p ft),
                       locked_files := lock_file s.locked_files p })

/-- `OCRTaskManager.start`: lazily brings the worker pool up; the shutdown
flag is left untouched. -/
def start_mgr (s : MgrState) : MgrState :=
  if s.executor_up then s else { s with executor_up := true }

/-- `OCRTaskManager._start_task`: ensure the pool, mark the row running with a
start-time stamp, dispatch the job and spawn its monitor thread. -/
def start_task (s : MgrState) (tid : String) (nowMs : Int) : MgrState :=
  let s1 := start_mgr s
  { s1 with
      tasks := updateTask s1.tasks tid (fun t =>
        { t with status := .running, start_time := some nowMs, message := "processing" }),
      monitors := tid :: s1.monitors }

/-- `OCRTaskManager.submit_task`: the creation phase followed synchronously by
`_start_task`. -/
def submit_task (s : MgrState) (p ft : String) (nowMs pyHash : Int) :
    Except SubmitErr (String × MgrState) :=
  match submit_core s p ft nowMs pyHash with
  | .error e => .error e
  | .ok (tid, s1) => .ok (tid, start_task s1 tid nowMs)

/-- What `future.result(timeout=3600)` delivers to a monitor thread: either a
returned value (a dict with or without a `success` key, with its optional
message / error / payload fields) or a raised exception (worker failure or
the one-hour timeout). -/
inductive WorkerOutcome where
  | res (hasSuccessKey success : Bool) (msg : Option String) (err : Option String)
      (payload : Option String)
  | exn (emsg : String)
deriving DecidableEq, Repr

/-- The row mutation performed by `OCRTaskManager._monitor_task` once the
outcome is in hand: completed / failed per the `success` flag, completed for
the old result format, failed on an exception; the end time is stamped in
every branch. Note that the current status of the row is never consulted. -/
def commitOutcome (t : OCRTask) (o : WorkerOutcome) (tEnd : Int) : OCRTask :=
  match o with
  | .res hasKey success msg err payload =>
      if hasKey then
        if success then
          { t with status := .completed, progress := 1, message := msg.getD "done",
                   result := payload, end_time := some tEnd }
        else
          { t with status := .failed, message := msg.getD "failed",
                   error := some (err.getD "unknown error"), end_time := some tEnd }
      else
        { t with status := .completed, progress := 1, message := "done",
                 result := payload, end_time := some tEnd }
  | .exn emsg =>
      { t with status := .failed, message := "exception: " ++ emsg, error := some emsg,
               end_time := some tEnd }

/-- `OCRTaskManager._monitor_task` taking effect: enabled only for an
outstanding monitor (each dispatched task has exactly one monitor thread and
it commits once); if the row still exists it is overwritten with the outcome
and the row's file path is unlocked, otherwise nothing happens. -/
def monitor_commit (s : MgrState) (tid : String) (o : WorkerOutcome) (tEnd : Int) : MgrState :=
  if tid ∈ s.monitors then
    let s1 := { s with monitors := s.monitors.erase tid }
    match s1.tasks.lookup tid with
    | none => s1
    | some t =>
        { s1 with tasks := updateTask s1.tasks tid (fun t0 => commitOutcome t0 o tEnd),
                  locked_files := unlock_file s1.locked_files t.file_path }
  else s

/-- `OCRTaskManager.cancel_task`: only a pending or running row is marked
cancelled (and its path unlocked); returns whether anything happened. -/
def cancel_task (s : MgrState) (tid : String) : Bool × MgrState :=
  match s.tasks.lookup tid with
  | some t =>
      if t.status = .pending ∨ t.status = .running then
        let cancelRow : OCRTask → OCRTask := fun t0 =>
          { t0 with status := .cancelled, message := "cancelled" }
        (true, { s with tasks := updateTask s.tasks tid cancelRow,
                        locked_files := unlock_file s.locked_files t.file_path })
      else (false, s)
  | none => (false, s)

/-- Terminal statuses. -/
def terminalB (st : TaskStatus) : Bool :=
  st = .completed ∨ st = .failed ∨ st = .cancelled

/-- The sweep condition of `OCRTaskManager.cleanup_completed_tasks`: terminal
status, truthy end time, and older than the age bound (in seconds). -/
def sweepableB (t : OCRTask) (maxAgeSeconds nowS : Int) : Bool :=
  terminalB t.status &&
    (match t.end_time with
     | some e => e ≠ 0 && nowS - e > maxAgeSeconds
     | none => false)

/-- `OCRTaskManager.cleanup_completed_tasks`: delete every sweepable row. -/
def cleanup_completed_tasks (s : MgrState) (maxAgeHours nowS : Int) : MgrState :=
  { s with tasks := s.tasks.filter (fun kv => ! sweepableB kv.2 (maxAgeHours * 3600) nowS) }

/-- `OCRTaskManager.stop`: set the shutdown flag and drain and drop the pool.
The flag is never cleared again by any operation. -/
def stop_mgr (s : MgrState) : MgrState :=
  { s with shutdown := true, executor_up := false }

/-- One orchestrator event: an API call, or one monitor thread committing its
worker's outcome. -/
inductive Ev where
  | submit (p ft : String) (nowMs pyHash : Int)
  | monitorCommit (tid : String) (o : WorkerOutcome) (tEnd : Int)
  | cancel (tid : String)
  | cleanup (maxAgeHours nowS : Int)
  | start
  | stop
deriving DecidableEq, Repr

/-- The transition function (a failing `submit_task` raises to the caller and
leaves the state unchanged). -/
def step (s : MgrState) : Ev → MgrState
  | .submit p ft nowMs pyHash =>
      match submit_task s p ft nowMs pyHash with
      | .ok (_, s1) => s1
      | .error _ => s
  | .monitorCommit tid o tEnd => monitor_commit s tid o tEnd
  | .cancel tid => (cancel_task s tid).2
  | .cleanup maxAgeHours nowS => cleanup_completed_tasks s maxAgeHours nowS
  | .start => start_mgr s
  | .stop => stop_mgr s

/-- Run a trace from a given state. -/
def runFrom (s : MgrState) (evs : List Ev) : MgrState :=
  evs.foldl step s

/-- Run a trace from the freshly constructed manager; every reachable state
of the orchestrator is `run evs` for some event trace `evs`. -/
def run (evs : List Ev) : MgrState :=
  runFrom mgrInit evs

/-! ## Spec-side definition (refinement comparison only)

`specCurrentFiles` follows the specification's words, not the source: the
specification states that only walked files whose extension is in an
externally supplied allow-list are part of the current file set. -/

/-- Spec-side current file set: walked files restricted to the allow-list. -/
def specCurrentFiles (allowed : List String) (walked : List String) : List String :=
  walked.filter (fun p => allowed.contains (extOf p))

/-! ## Concrete instances used in witnesses and counterexamples -/

/-- A filesystem on which every `os.stat` call fails. -/
def fsEmpty : FS := fun _ => none

/-- A cache entry whose timestamps all fall in 2020. -/
def oldInfo : FileInfo where
  file_name := "p"
  file_path := "p"
  file_size_mb := 0
  creation_date := ⟨2020, 0⟩
  modification_date := ⟨2020, 0⟩
  access_date := ⟨2020, 0⟩
  extension := ""
  category := ""
  importance := ""
  tags := ""
  notes := ""
  status := "new"
  hash := ""
  cached_at := none

/-- A well-formed serialized cache whose schema version tag is not `"1.0"`. -/
def badVersionCache : CacheData :=
  { files := [("p", oldInfo)], last_scan := none, version := "0.9" }

/-- A stat result entirely in 2020, 10 bytes. -/
def st2020 : Stat :=
  { st_mtime := ⟨2020, 0⟩, st_size := 10, st_ctime := ⟨2020, 0⟩, st_atime := ⟨2020, 0⟩ }

/-- A stat result entirely in 2025, 7 bytes. -/
def st2025 : Stat :=
  { st_mtime := ⟨2025, 3⟩, st_size := 7, st_ctime := ⟨2025, 3⟩, st_atime := ⟨2025, 3⟩ }

/-- A filesystem with exactly one file `f1`, unchanged since 2020. -/
def fsC3 : FS := fun p => if p = "f1" then some st2020 else none

/-- The cache entry for `f1` whose digest matches `fsC3` (so the file is
classified unchanged). -/
def infoC3 : FileInfo :=
  { oldInfo with file_name := "f1", file_path := "f1", hash := "h!2020.0_10_f1" }

/-- A cache holding exactly `f1`. -/
def cacheC3 : CacheData := { files := [("f1", infoC3)], last_scan := none, version := "1.0" }

/-- The result of the deletion-free pass over `fsC3` in year 2025: `f1` is
cached, on disk, unchanged, but fails the current-year filter, so every
bucket is empty while `f1` stays in the cache. -/
def resC3 : ScanResult :=
  { new_files := [], updated_files := [], unchanged_files := [], deleted_files := [],
    total_files := 0, scan_time := ⟨2025, 1⟩,
    cache := { files := [("f1", infoC3)], last_scan := some ⟨2025, 1⟩, version := "1.0" },
    upserts := [] }

/-- A filesystem with exactly one file `doc.txt`, dated 2025. -/
def fsC4 : FS := fun p => if p = "doc.txt" then some st2025 else none

/-- The metadata record the scan builds for `doc.txt` under `fsC4`. -/
def infoC4 : FileInfo where
  file_name := "doc.txt"
  file_path := "doc.txt"
  file_size_mb := 0
  creation_date := ⟨2025, 3⟩
  modification_date := ⟨2025, 3⟩
  access_date := ⟨2025, 3⟩
  extension := ".txt"
  category := ""
  importance := ""
  tags := ""
  notes := ""
  status := "new"
  hash := ""
  cached_at := none

/-- The cache entry the pass stores for `doc.txt`: `infoC4` stamped with the
recomputed digest and the `cached_at` time. -/
def storedC4 : FileInfo :=
  { infoC4 with hash := "h!2025.3_7_doc.txt", cached_at := some ⟨2025, 9⟩ }

/-- The result of the deletion-free pass over `fsC4` starting from an empty
cache: `doc.txt` is classified new, cached and upserted despite its
extension. -/
def resC4 : ScanResult :=
  { new_files := [infoC4], updated_files := [], unchanged_files := [], deleted_files := [],
    total_files := 1, scan_time := ⟨2025, 9⟩,
    cache := { files := [("doc.txt", storedC4)], last_scan := some ⟨2025, 9⟩, version := "1.0" },
    upserts := [⟨"doc.txt", "h!2025.3_7_doc.txt", 0, ⟨2025, 3⟩, "new"⟩] }

/-- Submit one job for `p` (its task id is `1000_0`). -/
def lockedTrace : List Ev := [.submit "p" "pdf" 1000 0]

/-- Submit one job for `p`, then stop the manager while `p` is still locked. -/
def stopTrace : List Ev := [.submit "p" "pdf" 1000 0, .stop]

/-- Submit one job for `p`, then cancel it while it is running. -/
def cancelTrace : List Ev := [.submit "p" "pdf" 1000 0, .cancel "1000_0"]

/-- The cancelled task's monitor thread finally receives the worker's
successful outcome and commits it. -/
def staleCommit : Ev := .monitorCommit "1000_0" (.res true true none none none) 5

/-- Cancel a running task, resubmit the same path, then let the stale monitor
of the first task commit (which unlocks the path out from under the second
task). -/
def resubmitTrace : List Ev :=
  [.submit "p" "pdf" 1000 0, .cancel "1000_0", .submit "p" "pdf" 2000 0, staleCommit]

/-- Two submissions for different paths in the same millisecond whose Python
hashes agree modulo 10000, so both generate task id `1000_17`. -/
def collideTrace : List Ev := [.submit "a" "pdf" 1000 17, .submit "b" "pdf" 1000 10017]

/-- State after the first of the two colliding submissions. -/
def s7a : MgrState := run [.submit "a" "pdf" 1000 17]

/-- State after both colliding submissions. -/
def s7b : MgrState := run collideTrace

/-- Submit one job for `p` and let its monitor commit a successful outcome. -/
def doneTrace : List Ev :=
  [.submit "p" "pdf" 1000 0, .monitorCommit "1000_0" (.res true true none none none) 7]

/-- State after `doneTrace`. -/
def sDone : MgrState := run doneTrace

/-- The completed task row held by `sDone`. -/
def tDone : OCRTask :=
  { task_id := "1000_0", file_path := "p", file_type := "pdf", status := .completed,
    progress := 1, message := "done", result := none, error := none,
    start_time := some 1000, end_time := some 7, worker_id := none }

/-- A task currently counted against the Lock Set: pending or running. -/
def activeB (t : OCRTask) : Bool :=
  t.status = .pending ∨ t.status = .running

/-- Number of pending/running rows for path `p` in a task table. -/
def activeCountL (tasks : List (String × OCRTask)) (p : String) : Nat :=
  tasks.countP (fun kv => decide (kv.2.file_path = p) && activeB kv.2)

/-- The Lock Set invariant of the spec, strengthened with per-path uniqueness:
every locked path has exactly one pending/running row, every pending/running
row's path is locked, keys and locks are duplicate-free, and every
outstanding monitor belongs to a running row. -/
def goodInv (s : MgrState) : Prop :=
  (s.tasks.map Prod.fst).Nodup ∧
  s.locked_files.Nodup ∧
  (∀ p ∈ s.locked_files, activeCountL s.tasks p = 1) ∧
  (∀ kv ∈ s.tasks, activeB kv.2 = true → kv.2.file_path ∈ s.locked_files) ∧
  s.monitors.Nodup ∧
  (∀ tid ∈ s.monitors, ∃ t, s.tasks.lookup tid = some t ∧ t.status = .running)

/-- An event is benign in a state when it is not a `cancel` and, for a
submit, the generated task id is fresh. -/
def goodEv (s : MgrState) : Ev → Bool
  | .cancel _ => false
  | .submit _ _ nowMs pyHash => (s.tasks.lookup (genTaskId nowMs pyHash)).isNone
  | _ => true

/-- A trace is benign when every event is benign in the state it fires in. -/
def goodTrace : MgrState → List Ev → Bool
  | _, [] => true
  | s, e :: es => goodEv s e && goodTrace (step s e) es

/-- A benign trace: submit, monitor commit, resubmit of the same path, all
with fresh task ids and no cancel. -/
def goodTraceW : List Ev :=
  [.submit "p" "pdf" 1000 0, .monitorCommit "1000_0" (.res true true none none none) 7,
    .submit "p" "pdf" 2000 0]

/-- A cache holding one entry for `f2`, which is about to vanish from disk. -/
def cacheC8 : CacheData :=
  { files := [("f2", { oldInfo with file_name := "f2", file_path := "f2" })],
    last_scan := none, version := "1.0" }

/-- Occurrences of path `q` across the three on-disk buckets of a scan
accumulator. -/
def bucketPathCount (acc : ScanAcc) (q : String) : Nat :=
  (acc.new_files ++ acc.updated_files ++ acc.unchanged_files).countP
    (fun i => decide (i.file_path = q))

/-! ## Helper lemmas on association lists -/

theorem lookup_eq_none_iff {β : Type} (l : List (String × β)) (k : String) :
    l.lookup k = none ↔ ∀ kv ∈ l, kv.1 ≠ k := by
  induction l with
  | nil => simp [List.lookup]
  | cons kv t ih =>
      obtain ⟨a, b⟩ := kv
      by_cases h : k = a
      · subst h
        simp [List.lookup]
      · have hb : (k == a) = false := by simp [h]
        simp only [List.lookup, hb]
        simp only [List.mem_cons, forall_eq_or_imp, ih]
        constructor
        · intro hall
          exact ⟨fun he => h he.symm, hall⟩
        · intro hall
          exact hall.2

theorem lookup_mem {β : Type} {l : List (String × β)} {k : String} {v : β}
    (h : l.lookup k = some v) : (k, v) ∈ l := by
  induction l with
  | nil => simp [List.lookup] at h
  | cons kv t ih =>
      obtain ⟨a, b⟩ := kv
      by_cases hk : k = a
      · subst hk
        simp [List.lookup] at h
        simp [h]
      · have hb : (k == a) = false := by simp [hk]
        simp only [List.lookup, hb] at h
        exact List.mem_cons_of_mem _ (ih h)

theorem lookup_append_left {β : Type} {l : List (String × β)} (l2 : List (String × β))
    {k : String} {v : β} (h : l.lookup k = some v) : (l ++ l2).lookup k = some v := by
  induction l with
  | nil => simp [List.lookup] at h
  | cons kv t ih =>
      obtain ⟨a, b⟩ := kv
      by_cases hk : k = a
      · subst hk
        simp [List.lookup] at h ⊢
        exact h
      · have hb : (k == a) = false := by simp [hk]
        simp only [List.cons_append, List.lookup, hb] at h ⊢
        exact ih h

theorem lookup_append_right {β : Type} {l : List (String × β)} (l2 : List (String × β))
    {k : String} (h : l.lookup k = none) : (l ++ l2).lookup k = l2.lookup k := by
  induction l with
  | nil => simp
  | cons kv t ih =>
      obtain ⟨a, b⟩ := kv
      by_cases hk : k = a
      · subst hk
        simp [List.lookup] at h
      · have hb : (k == a) = false := by simp [hk]
        simp only [List.lookup, hb] at h
        simp only [List.cons_append, List.lookup, hb]
        exact ih h

theorem setEntry_of_lookup_none {β : Type} {l : List (String × β)} {k : String}
    (v : β) (h : l.lookup k = none) : setEntry l k v = l ++ [(k, v)] := by
  have hall := (lookup_eq_none_iff l k).1 h
  unfold setEntry
  have hany : l.any (fun kv => kv.1 = k) = false := by
    rw [List.any_eq_false]
    intro kv hkv
    simpa using hall kv hkv
  simp [hany]

theorem lookup_updateEntry {β : Type} (l : List (String × β)) (k : String) (v : β)
    (h : l.any (fun kv => kv.1 = k) = true) :
    (l.map (fun kv => if kv.1 = k then (k, v) else kv)).lookup k = some v := by
  induction l with
  | nil => simp at h
  | cons kv t ih =>
      obtain ⟨a, b⟩ := kv
      by_cases hk : a = k
      · subst hk
        have hc : ((a, b).1 = a) := rfl
        rw [List.map_cons, if_pos hc]
        simp [List.lookup]
      · have hc : ¬ ((a, b).1 = k) := hk
        rw [List.map_cons, if_neg hc]
        have hb : (k == a) = false := by
          simp only [beq_eq_false_iff_ne, ne_eq]
          exact fun he => hk he.symm
        simp only [List.lookup, hb]
        apply ih
        simpa [hk] using h

theorem lookup_setEntry_self {β : Type} (l : List (String × β)) (k : String) (v : β) :
    (setEntry l k v).lookup k = some v := by
  unfold setEntry
  by_cases h : l.any (fun kv => kv.1 = k)
  · simp only [h, if_pos]
    exact lookup_updateEntry l k v h
  · simp only [h, if_neg, Bool.false_eq_true, not_false_iff]
    have hn : l.lookup k = none := by
      rw [lookup_eq_none_iff]
      intro kv hkv he
      exact h (List.any_eq_true.mpr ⟨kv, hkv, by simp [he]⟩)
    rw [lookup_append_right _ hn]
    simp [List.lookup]

theorem lookup_mapEntry_ne {β : Type} (l : List (String × β)) (key k : String) (v : β)
    (h : k ≠ key) :
    (l.map (fun kv => if kv.1 = key then (key, v) else kv)).lookup k = l.lookup k := by
  induction l with
  | nil => simp
  | cons kv t ih =>
      obtain ⟨a, b⟩ := kv
      by_cases hk : a = key
      · rw [List.map_cons, if_pos (show (a, b).1 = key from hk)]
        have hb1 : (k == key) = false := by
          simp only [beq_eq_false_iff_ne, ne_eq]
          exact h
        have hb2 : (k == a) = false := by
          simp only [beq_eq_false_iff_ne, ne_eq]
          exact hk ▸ h
        simp only [List.lookup, hb1, hb2]
        exact ih
      · rw [List.map_cons, if_neg (show ¬ (a, b).1 = key from hk)]
        by_cases hka : k = a
        · subst hka
          simp [List.lookup]
        · have hb : (k == a) = false := by
            simp only [beq_eq_false_iff_ne, ne_eq]
            exact hka
          simp only [List.lookup, hb]
          exact ih

theorem lookup_setEntry_ne {β : Type} (l : List (String × β)) (key k : String) (v : β)
    (h : k ≠ key) : (setEntry l key v).lookup k = l.lookup k := by
  unfold setEntry
  by_cases ha : l.any (fun kv => kv.1 = key)
  · simp only [ha, if_pos]
    exact lookup_mapEntry_ne l key k v h
  · simp only [ha, if_neg, Bool.false_eq_true, not_false_iff]
    cases hl : l.lookup k with
    | some w => exact lookup_append_left _ hl
    | none =>
        rw [lookup_append_right _ hl]
        have hb : (k == key) = false := by
          simp only [beq_eq_false_iff_ne, ne_eq]
          exact h
        simp [List.lookup, hb, hl]

theorem lookup_updateTask_self (l : List (String × OCRTask)) (tid : String)
    (f : OCRTask → OCRTask) (t : OCRTask) (h : l.lookup tid = some t) :
    (updateTask l tid f).lookup tid = some (f t) := by
  unfold updateTask
  induction l with
  | nil => simp [List.lookup] at h
  | cons kv rest ih =>
      obtain ⟨a, b⟩ := kv
      by_cases hk : tid = a
      · subst hk
        simp [List.lookup] at h
        rw [List.map_cons, if_pos (show (tid, b).1 = tid from rfl)]
        simp [List.lookup, h]
      · have hb : (tid == a) = false := by
          simp only [beq_eq_false_iff_ne, ne_eq]
          exact hk
        simp only [List.lookup, hb] at h
        rw [List.map_cons, if_neg (show ¬ (a, b).1 = tid from fun he => hk he.symm)]
        simp only [List.lookup, hb]
        exact ih h

theorem lookup_updateTask_ne (l : List (String × OCRTask)) (tid k : String)
    (f : OCRTask → OCRTask) (h : k ≠ tid) :
    (updateTask l tid f).lookup k = l.lookup k := by
  unfold updateTask
  induction l with
  | nil => simp
  | cons kv rest ih =>
      obtain ⟨a, b⟩ := kv
      by_cases hk : a = tid
      · subst hk
        rw [List.map_cons, if_pos (show (a, b).1 = a from rfl)]
        have hb : (k == a) = false := by
          simp only [beq_eq_false_iff_ne, ne_eq]
          exact h
        simp only [List.lookup, hb]
        exact ih
      · rw [List.map_cons, if_neg (show ¬ (a, b).1 = tid from hk)]
        by_cases hka : k = a
        · subst hka
          simp [List.lookup]
        · have hb : (k == a) = false := by
            simp only [beq_eq_false_iff_ne, ne_eq]
            exact hka
          simp only [List.lookup, hb]
          exact ih

theorem updateTask_keys (l : List (String × OCRTask)) (tid : String) (f : OCRTask → OCRTask) :
    (updateTask l tid f).map Prod.fst = l.map Prod.fst := by
  unfold updateTask
  induction l with
  | nil => simp
  | cons kv rest ih =>
      obtain ⟨a, b⟩ := kv
      by_cases hk : a = tid
      · rw [List.map_cons, if_pos (show (a, b).1 = tid from hk)]
        simp only [List.map_cons, ih]
      · rw [List.map_cons, if_neg (show ¬ (a, b).1 = tid from hk)]
        simp only [List.map_cons, ih]

theorem updateTask_eq_of_forall_ne (tid : String) (f : OCRTask → OCRTask) :
    ∀ l : List (String × OCRTask), (∀ kv ∈ l, kv.1 ≠ tid) → updateTask l tid f = l := by
  intro l
  induction l with
  | nil => intro _; rfl
  | cons kv rest ih =>
      intro hall
      unfold updateTask
      rw [List.map_cons, if_neg (hall kv (List.mem_cons_self kv rest))]
      have h2 := ih (fun kv2 hkv2 => hall kv2 (List.mem_cons_of_mem _ hkv2))
      unfold updateTask at h2
      rw [h2]

theorem updateTask_eq_of_lookup_none (l : List (String × OCRTask)) (tid : String)
    (f : OCRTask → OCRTask) (h : l.lookup tid = none) : updateTask l tid f = l :=
  updateTask_eq_of_forall_ne tid f l ((lookup_eq_none_iff l tid).1 h)

/-! ## Theorems -/

/-! ## Theorems -/

theorem setEntry_keys_sub {α : Type} (files : List (String × α)) (key : String) (v : α)
    (k : String) (hk : k ∈ files.map Prod.fst) :
    k ∈ (setEntry files key v).map Prod.fst := by
  unfold setEntry
  by_cases h : files.any (fun kv => kv.1 = key)
  · simp only [h, if_pos]
    simp only [List.map_map, List.mem_map] at *
    obtain ⟨kv, hkv, hfst⟩ := hk
    refine ⟨kv, hkv, ?_⟩
    by_cases hek : kv.1 = key
    · simp only [Function.comp, hek, if_pos]
      rw [← hek]; exact hfst
    · simp only [Function.comp, hek, if_neg, Bool.false_eq_true, not_false_iff]
      exact hfst
  · simp only [h, if_neg, Bool.false_eq_true, not_false_iff]
    simp [hk]

theorem md5hex_ne_empty (s : String) : md5hex s ≠ "" := by
  unfold md5hex
  intro hcon
  have hdata : ("h!" ++ s).data = ("" : String).data := by rw [hcon]
  rw [String.data_append] at hdata
  simp at hdata

theorem getCurrentFiles_go_mem (p : String) :
    ∀ (walked acc : List String),
      (p ∈ walked.foldl (fun acc q => if q ∈ acc then acc else acc ++ [q]) acc) ↔
        (p ∈ acc ∨ p ∈ walked) := by
  intro walked
  induction walked with
  | nil => intro acc; simp
  | cons w rest ih =>
      intro acc
      simp only [List.foldl_cons]
      by_cases hw : w ∈ acc
      · rw [if_pos hw, ih, List.mem_cons]
        constructor
        · rintro (h | h)
          · exact Or.inl h
          · exact Or.inr (Or.inr h)
        · rintro (h | h | h)
          · exact Or.inl h
          · exact Or.inl (h ▸ hw)
          · exact Or.inr h
      · rw [if_neg hw, ih, List.mem_cons, List.mem_append]
        simp only [List.mem_singleton]
        tauto

theorem getCurrentFiles_go_nodup :
    ∀ (walked acc : List String), acc.Nodup →
      (walked.foldl (fun acc q => if q ∈ acc then acc else acc ++ [q]) acc).Nodup := by
  intro walked
  induction walked with
  | nil => intro acc h; simpa using h
  | cons w rest ih =>
      intro acc h
      simp only [List.foldl_cons]
      by_cases hw : w ∈ acc
      · rw [if_pos hw]
        exact ih acc h
      · rw [if_neg hw]
        apply ih
        refine List.Nodup.append h (List.nodup_singleton w) ?_
        intro a ha hb
        simp only [List.mem_singleton] at hb
        exact hw (hb ▸ ha)

theorem mem_getCurrentFiles (walked : List String) (p : String) :
    p ∈ getCurrentFiles walked ↔ p ∈ walked := by
  unfold getCurrentFiles
  rw [getCurrentFiles_go_mem]
  simp

theorem nodup_getCurrentFiles (walked : List String) : (getCurrentFiles walked).Nodup :=
  getCurrentFiles_go_nodup walked [] List.nodup_nil

theorem submit_task_of_shutdown (s : MgrState) (p ft : String) (nowMs pyHash : Int)
    (h : s.shutdown = true) :
    submit_task s p ft nowMs pyHash = Except.error SubmitErr.shutdownErr := by
  unfold submit_task submit_core
  rw [h]
  simp

theorem step_shutdown_mono (s : MgrState) (e : Ev) (h : s.shutdown = true) :
    (step s e).shutdown = true := by
  cases e with
  | submit p ft nowMs pyHash =>
      have hsub := submit_task_of_shutdown s p ft nowMs pyHash h
      simp [step, hsub, h]
  | monitorCommit tid o tEnd =>
      show (monitor_commit s tid o tEnd).shutdown = true
      unfold monitor_commit
      by_cases hm : tid ∈ s.monitors
      · rw [if_pos hm]
        cases hl : List.lookup tid s.tasks with
        | none => simp [hl, h]
        | some t => simp [hl, h]
      · rw [if_neg hm]
        exact h
  | cancel tid =>
      show ((cancel_task s tid).2).shutdown = true
      unfold cancel_task
      cases hl : s.tasks.lookup tid with
      | none => simp [hl, h]
      | some t =>
          by_cases hst : t.status = TaskStatus.pending ∨ t.status = TaskStatus.running
          · simp only [hl]
            rw [if_pos hst]
            simpa using h
          · simp only [hl]
            rw [if_neg hst]
            exact h
  | cleanup maxAgeHours nowS =>
      simpa [step, cleanup_completed_tasks] using h
  | start =>
      by_cases hex : s.executor_up <;> simp [step, start_mgr, hex, h]
  | stop =>
      simp [step, stop_mgr]

theorem runFrom_shutdown_mono (evs : List Ev) :
    ∀ s : MgrState, s.shutdown = true → (runFrom s evs).shutdown = true := by
  induction evs with
  | nil => intro s h; simpa [runFrom] using h
  | cons e rest ih =>
      intro s h
      simp only [runFrom, List.foldl_cons]
      exact ih (step s e) (step_shutdown_mono s e h)

theorem step_submit_of_shutdown (s : MgrState) (p ft : String) (nowMs pyHash : Int)
    (h : s.shutdown = true) : step s (.submit p ft nowMs pyHash) = s := by
  have hsub := submit_task_of_shutdown s p ft nowMs pyHash h
  simp [step, hsub]

/-- C10: after `stop()` has been called, every subsequent `submit_task` call
raises the shutdown error and leaves the whole state (task table and lock set
included) unchanged, and this persists under any further operations —
including `start()`, which brings the pool up but never clears the shutdown
flag. -/
theorem c10_submit_after_stop (s : MgrState) (evs : List Ev) (p ft : String)
    (nowMs pyHash : Int) :
    (runFrom (step s .stop) evs).shutdown = true ∧
    submit_task (runFrom (step s .stop) evs) p ft nowMs pyHash =
      Except.error SubmitErr.shutdownErr ∧
    step (runFrom (step s .stop) evs) (.submit p ft nowMs pyHash) =
      runFrom (step s .stop) evs ∧
    (start_mgr (runFrom (step s .stop) evs)).shutdown = true := by
  have h0 : (step s .stop).shutdown = true := by simp [step, stop_mgr]
  have h1 : (runFrom (step s .stop) evs).shutdown = true := runFrom_shutdown_mono evs _ h0
  refine ⟨h1, submit_task_of_shutdown _ p ft nowMs pyHash h1,
    step_submit_of_shutdown _ p ft nowMs pyHash h1, ?_⟩
  by_cases hex : (runFrom (step s .stop) evs).executor_up <;> simp [start_mgr, hex, h1]

/-- C9 (corrected), counterexample: a deserializable cache file whose schema
version tag differs from the expected `"1.0"` is installed wholesale by
`load_cache` — its one-entry table is kept, not replaced by the empty table
the claim requires. -/
theorem c9_version_counterexample :
    badVersionCache.version ≠ emptyCacheData.version ∧
    load_cache emptyCacheData (.ok badVersionCache) = badVersionCache ∧
    (load_cache emptyCacheData (.ok badVersionCache)).files.length = 1 :=
  ⟨by decide, rfl, rfl⟩

/-- C9 (amended): `load_cache` on a missing file keeps the empty table built
by the constructor, and on a corrupt (undeserializable) file resets to the
empty table; being a total function it never raises. The schema version tag,
however, is never checked: a well-formed file with a mismatched tag is
accepted wholesale. -/
theorem c9_load_fallback (prior : CacheData) :
    load_cache prior .corrupt = emptyCacheData ∧
    load_cache emptyCacheData .missing = emptyCacheData :=
  ⟨rfl, rfl⟩

/-- C5 (corrected), counterexample: for a path with no cache entry whose
`os.stat` fails, `is_file_changed` returns `false` — both digests are the
empty string — contradicting both "returns true when no cache entry exists"
and "on stat failure returns true regardless of the cache contents". -/
theorem c5_stat_failure_counterexample :
    fsEmpty "p" = none ∧ ([] : List (String × FileInfo)).lookup "p" = none ∧
    is_file_changed [] fsEmpty "p" = false :=
  ⟨rfl, rfl, by decide⟩

/-- C5 (amended): `is_file_changed` compares the recomputed digest (empty
string on stat failure) with the cached digest (empty string when no entry
exists): with no cache entry it returns true iff the stat succeeds; on stat
failure with an entry it returns true iff the cached digest is nonempty; with
an entry and a successful stat it returns true iff the cached digest differs
from the recomputed one. -/
theorem c5_is_file_changed_amended (files : List (String × FileInfo)) (fs : FS) (p : String) :
    (files.lookup p = none → fs p ≠ none → is_file_changed files fs p = true) ∧
    (files.lookup p = none → fs p = none → is_file_changed files fs p = false) ∧
    (∀ info, files.lookup p = some info → fs p = none →
      (is_file_changed files fs p = true ↔ info.hash ≠ "")) ∧
    (∀ info st, files.lookup p = some info → fs p = some st →
      (is_file_changed files fs p = true ↔
        info.hash ≠ md5hex (encodeDT st.st_mtime ++ "_" ++ toString st.st_size ++ "_" ++ p))) := by
  refine ⟨?_, ?_, ?_, ?_⟩
  · intro hl hfs
    cases hfs2 : fs p with
    | none => exact absurd hfs2 hfs
    | some st =>
        unfold is_file_changed get_file_hash cachedHash
        rw [hl, hfs2]
        simp [md5hex_ne_empty]
  · intro hl hfs
    unfold is_file_changed get_file_hash cachedHash
    rw [hl, hfs]
    simp
  · intro info hl hfs
    unfold is_file_changed get_file_hash cachedHash
    rw [hl, hfs]
    constructor
    · intro hne
      simp at hne
      exact fun he => hne he.symm
    · intro hne
      simp
      exact fun he => hne he.symm
  · intro info st hl hfs
    unfold is_file_changed get_file_hash cachedHash
    rw [hl, hfs]
    constructor
    · intro hne
      simp at hne
      exact fun he => hne he.symm
    · intro hne
      simp
      exact fun he => hne he.symm

/-- C5 witness: the amended characterization applied at the concrete state
with an empty cache and an always-failing filesystem. -/
theorem c5_is_file_changed_amended_witness :
    ([] : List (String × FileInfo)).lookup "p" = none ∧ fsEmpty "p" = none ∧
    is_file_changed [] fsEmpty "p" = false :=
  ⟨rfl, rfl, (c5_is_file_changed_amended [] fsEmpty "p").2.1 rfl rfl⟩

/-- C4 (corrected), counterexample: with allow-list `[".pdf"]`, the walked
file `doc.txt` — whose extension is not allowed and which the spec-side
current file set therefore excludes — is nonetheless enumerated, classified
as new, written to the cache store and upserted into the ledger; the pass
(which has no deletions) completes with exactly the result `resC4`. -/
theorem c4_unfiltered_counterexample :
    extOf "doc.txt" ∉ [".pdf"] ∧
    specCurrentFiles [".pdf"] ["doc.txt"] = [] ∧
    getCurrentFiles ["doc.txt"] = ["doc.txt"] ∧
    scan_incremental fsC4 2025 ⟨2025, 9⟩ ["doc.txt"] emptyCacheData = Except.ok resC4 ∧
    resC4.new_files.map FileInfo.file_path = ["doc.txt"] ∧
    (resC4.cache.files.lookup "doc.txt").isSome = true ∧
    resC4.upserts.map UpsertRow.file_path = ["doc.txt"] :=
  ⟨by decide, by decide, rfl, rfl, rfl, rfl, rfl⟩

/-- C4 (amended): the enumerated current file set is exactly the set of
walked files — no extension allow-list is consulted anywhere in the
reconciler, so files of every extension are classified, cached and
upserted. -/
theorem c4_no_extension_filter_amended (walked : List String) (p : String) :
    p ∈ getCurrentFiles walked ↔ p ∈ walked :=
  mem_getCurrentFiles walked p

theorem start_task_locked (s : MgrState) (tid : String) (ms : Int) :
    (start_task s tid ms).locked_files = s.locked_files := by
  unfold start_task start_mgr
  by_cases hex : s.executor_up <;> simp [hex]

theorem lookup_append_singleton_ne {β : Type} (l : List (String × β)) (k tid : String)
    (v : β) (h : k ≠ tid) : (l ++ [(tid, v)]).lookup k = l.lookup k := by
  cases hl : l.lookup k with
  | some w => exact lookup_append_left _ hl
  | none =>
      rw [lookup_append_right _ hl]
      have hb : (k == tid) = false := by
        simp only [beq_eq_false_iff_ne, ne_eq]
        exact h
      simp [List.lookup, hb, hl]

/-- C6 (corrected), counterexample: after `stop()`, a submit for a path that
is still in the Lock Set fails with the shutdown `RuntimeError`, not with the
already-locked `ValueError` the claim promises for every locked path. -/
theorem c6_shutdown_counterexample :
    is_file_locked (run stopTrace) "p" = true ∧
    (run stopTrace).shutdown = true ∧
    submit_task (run stopTrace) "p" "pdf" 2000 0 = Except.error SubmitErr.shutdownErr :=
  ⟨rfl, rfl, rfl⟩

/-- C6 (amended): provided `stop()` has not been called, `submit_task` on a
locked path fails with the already-locked error leaving the state unchanged,
and otherwise creates the task in state pending, locks the path, immediately
marks the row running before returning, and returns the generated task id.
After `stop()`, every submit fails with the shutdown error instead,
regardless of the Lock Set. -/
theorem c6_submit_guarded (s : MgrState) (p ft : String) (nowMs pyHash : Int)
    (hsd : s.shutdown = false) :
    (is_file_locked s p = true →
      submit_task s p ft nowMs pyHash = Except.error SubmitErr.alreadyLocked ∧
      step s (.submit p ft nowMs pyHash) = s) ∧
    (is_file_locked s p = false →
      ∃ sc : MgrState,
        submit_core s p ft nowMs pyHash = Except.ok (genTaskId nowMs pyHash, sc) ∧
        sc.tasks.lookup (genTaskId nowMs pyHash) =
          some (mkPendingTask (genTaskId nowMs pyHash) p ft) ∧
        is_file_locked sc p = true ∧
        submit_task s p ft nowMs pyHash =
          Except.ok (genTaskId nowMs pyHash, start_task sc (genTaskId nowMs pyHash) nowMs) ∧
        (start_task sc (genTaskId nowMs pyHash) nowMs).tasks.lookup (genTaskId nowMs pyHash) =
          some { mkPendingTask (genTaskId nowMs pyHash) p ft with
                   status := .running, start_time := some nowMs, message := "processing" } ∧
        is_file_locked (start_task sc (genTaskId nowMs pyHash) nowMs) p = true) := by
  constructor
  · intro hlk
    have hsub : submit_task s p ft nowMs pyHash = Except.error SubmitErr.alreadyLocked := by
      unfold submit_task submit_core
      rw [hsd, hlk]
      simp
    exact ⟨hsub, by simp [step, hsub]⟩
  · intro hlk
    have hcore : submit_core s p ft nowMs pyHash =
        Except.ok (genTaskId nowMs pyHash,
          { s with tasks := setEntry s.tasks (genTaskId nowMs pyHash)
                     (mkPendingTask (genTaskId nowMs pyHash) p ft),
                   locked_files := lock_file s.locked_files p }) := by
      unfold submit_core
      rw [hsd, hlk]
      simp
    refine ⟨_, hcore, ?_, ?_, ?_, ?_, ?_⟩
    · exact lookup_setEntry_self _ _ _
    · unfold is_file_locked lock_file
      have hp : p ∉ s.locked_files := by
        unfold is_file_locked at hlk
        simpa using hlk
      rw [if_neg hp]
      simp
    · unfold submit_task
      rw [hcore]
    · rw [show (start_task
          { s with tasks := setEntry s.tasks (genTaskId nowMs pyHash)
                     (mkPendingTask (genTaskId nowMs pyHash) p ft),
                   locked_files := lock_file s.locked_files p }
          (genTaskId nowMs pyHash) nowMs).tasks =
        updateTask (setEntry s.tasks (genTaskId nowMs pyHash)
                     (mkPendingTask (genTaskId nowMs pyHash) p ft))
          (genTaskId nowMs pyHash)
          (fun t => { t with status := .running, start_time := some nowMs,
                             message := "processing" }) from by
        unfold start_task start_mgr
        by_cases hex : s.executor_up <;> simp [hex]]
      exact lookup_updateTask_self _ _ _ _ (lookup_setEntry_self _ _ _)
    · unfold is_file_locked
      rw [start_task_locked]
      show (decide (p ∈ lock_file s.locked_files p)) = true
      unfold lock_file
      have hp : p ∉ s.locked_files := by
        unfold is_file_locked at hlk
        simpa using hlk
      rw [if_neg hp]
      simp

/-- C6 witness: the amended guard behaviour applied at the reachable state in
which `p` is locked and the manager is not stopped. -/
theorem c6_submit_guarded_witness :
    (run lockedTrace).shutdown = false ∧
    is_file_locked (run lockedTrace) "p" = true ∧
    submit_task (run lockedTrace) "p" "pdf" 2000 0 = Except.error SubmitErr.alreadyLocked ∧
    step (run lockedTrace) (.submit "p" "pdf" 2000 0) = run lockedTrace :=
  ⟨rfl, rfl, ((c6_submit_guarded (run lockedTrace) "p" "pdf" 2000 0 rfl).1 rfl).1,
    ((c6_submit_guarded (run lockedTrace) "p" "pdf" 2000 0 rfl).1 rfl).2⟩

/-- C7 (corrected), counterexample: two successful submissions for distinct
paths in the same millisecond with Python hashes congruent modulo 10000 get
the same task id `1000_17`; the second dict assignment overwrites the first
task's row, so afterwards the table holds a single row (for path `b`) instead
of two. -/
theorem c7_task_id_collision_counterexample :
    genTaskId 1000 17 = genTaskId 1000 10017 ∧
    submit_task mgrInit "a" "pdf" 1000 17 = Except.ok ("1000_17", s7a) ∧
    submit_task s7a "b" "pdf" 1000 10017 = Except.ok ("1000_17", s7b) ∧
    s7a.tasks.length = 1 ∧ s7b.tasks.length = 1 ∧
    (s7b.tasks.lookup "1000_17").map OCRTask.file_path = some "b" :=
  ⟨rfl, rfl, rfl, rfl, rfl, rfl⟩

/-- C7 (amended): a successful submission whose generated id
`f"{ms}_{hash mod 10000}"` is not already a key of the task table appends a
fresh row and leaves every other row unchanged; two successful submissions
get distinct ids only when their (millisecond, hash-bucket) pairs differ —
on a collision the dict assignment silently replaces the existing row. -/
theorem c7_fresh_id_appends (s : MgrState) (p ft : String) (nowMs pyHash : Int)
    (hsd : s.shutdown = false) (hlk : is_file_locked s p = false)
    (hfresh : s.tasks.lookup (genTaskId nowMs pyHash) = none) :
    ∃ s1, submit_task s p ft nowMs pyHash = Except.ok (genTaskId nowMs pyHash, s1) ∧
      s1.tasks.length = s.tasks.length + 1 ∧
      (s1.tasks.lookup (genTaskId nowMs pyHash)).isSome = true ∧
      ∀ tid, tid ≠ genTaskId nowMs pyHash → s1.tasks.lookup tid = s.tasks.lookup tid := by
  have hcore : submit_core s p ft nowMs pyHash =
      Except.ok (genTaskId nowMs pyHash,
        { s with tasks := setEntry s.tasks (genTaskId nowMs pyHash)
                   (mkPendingTask (genTaskId nowMs pyHash) p ft),
                 locked_files := lock_file s.locked_files p }) := by
    unfold submit_core
    rw [hsd, hlk]
    simp
  have hset : setEntry s.tasks (genTaskId nowMs pyHash)
      (mkPendingTask (genTaskId nowMs pyHash) p ft) =
      s.tasks ++ [(genTaskId nowMs pyHash, mkPendingTask (genTaskId nowMs pyHash) p ft)] :=
    setEntry_of_lookup_none _ hfresh
  have htasks : (start_task
      { s with tasks := setEntry s.tasks (genTaskId nowMs pyHash)
                 (mkPendingTask (genTaskId nowMs pyHash) p ft),
               locked_files := lock_file s.locked_files p }
      (genTaskId nowMs pyHash) nowMs).tasks =
      updateTask (setEntry s.tasks (genTaskId nowMs pyHash)
          (mkPendingTask (genTaskId nowMs pyHash) p ft))
        (genTaskId nowMs pyHash)
        (fun t => { t with status := .running, start_time := some nowMs,
                           message := "processing" }) := by
    unfold start_task start_mgr
    by_cases hex : s.executor_up <;> simp [hex]
  have hlookpend : (setEntry s.tasks (genTaskId nowMs pyHash)
      (mkPendingTask (genTaskId nowMs pyHash) p ft)).lookup (genTaskId nowMs pyHash) =
      some (mkPendingTask (genTaskId nowMs pyHash) p ft) :=
    lookup_setEntry_self _ _ _
  refine ⟨start_task
      { s with tasks := setEntry s.tasks (genTaskId nowMs pyHash)
                 (mkPendingTask (genTaskId nowMs pyHash) p ft),
               locked_files := lock_file s.locked_files p }
      (genTaskId nowMs pyHash) nowMs, ?_, ?_, ?_, ?_⟩
  · unfold submit_task
    rw [hcore]
  · rw [htasks, hset]
    unfold updateTask
    rw [List.length_map, List.length_append]
    simp
  · rw [htasks, lookup_updateTask_self _ _ _ _ hlookpend]
    rfl
  · intro tid2 htid2
    rw [htasks, lookup_updateTask_ne _ _ _ _ htid2, hset]
    exact lookup_append_singleton_ne _ _ _ _ htid2

/-- C7 witness: the fresh-id behaviour applied at the freshly constructed
manager. -/
theorem c7_fresh_id_appends_witness :
    mgrInit.shutdown = false ∧ is_file_locked mgrInit "a" = false ∧
    mgrInit.tasks.lookup (genTaskId 1000 17) = none ∧
    (∃ s1, submit_task mgrInit "a" "pdf" 1000 17 = Except.ok (genTaskId 1000 17, s1) ∧
      s1.tasks.length = mgrInit.tasks.length + 1 ∧
      (s1.tasks.lookup (genTaskId 1000 17)).isSome = true ∧
      ∀ tid, tid ≠ genTaskId 1000 17 → s1.tasks.lookup tid = mgrInit.tasks.lookup tid) :=
  ⟨rfl, rfl, rfl, c7_fresh_id_appends mgrInit "a" "pdf" 1000 17 rfl rfl rfl⟩


theorem lookup_filter_none {β : Type} (l : List (String × β)) (q : String × β → Bool)
    (k : String) (h : l.lookup k = none) : (l.filter q).lookup k = none := by
  rw [lookup_eq_none_iff] at h ⊢
  intro kv hkv
  exact h kv (List.mem_of_mem_filter hkv)

theorem lookup_filter_of_nodup {β : Type} :
    ∀ (l : List (String × β)) (q : String × β → Bool) (k : String) (v w : β),
      (l.map Prod.fst).Nodup → l.lookup k = some v → (l.filter q).lookup k = some w →
      w = v := by
  intro l
  induction l with
  | nil =>
      intro q k v w _ hl _
      simp [List.lookup] at hl
  | cons kv rest ih =>
      intro q k v w hnd hl hf
      obtain ⟨a, b⟩ := kv
      simp only [List.map_cons, List.nodup_cons] at hnd
      by_cases hk : k = a
      · subst hk
        simp only [List.lookup, beq_self_eq_true] at hl
        have hvb : b = v := by simpa using hl
        by_cases hq : q (k, b)
        · rw [List.filter_cons_of_pos hq] at hf
          simp only [List.lookup, beq_self_eq_true] at hf
          have : b = w := by simpa using hf
          rw [← hvb, ← this]
        · rw [List.filter_cons_of_neg hq] at hf
          have hrest : rest.lookup k = none := by
            rw [lookup_eq_none_iff]
            intro kv2 hkv2 he
            exact hnd.1 (he ▸ List.mem_map_of_mem Prod.fst hkv2)
          rw [lookup_filter_none rest q k hrest] at hf
          exact absurd hf (by simp)
      · have hb : (k == a) = false := by
          simp only [beq_eq_false_iff_ne, ne_eq]
          exact hk
        simp only [List.lookup, hb] at hl
        by_cases hq : q (a, b)
        · rw [List.filter_cons_of_pos hq] at hf
          simp only [List.lookup, hb] at hf
          exact ih q k v w hnd.2 hl hf
        · rw [List.filter_cons_of_neg hq] at hf
          exact ih q k v w hnd.2 hl hf

/-- C1 (corrected), counterexample: a task cancelled while running is in the
terminal state `cancelled`, yet when its monitor thread later receives the
worker's outcome it overwrites the row to `completed` — a transition out of a
terminal state. -/
theorem c1_cancelled_overwritten_counterexample :
    ((run cancelTrace).tasks.lookup "1000_0").map OCRTask.status = some .cancelled ∧
    terminalB .cancelled = true ∧
    ((run (cancelTrace ++ [staleCommit])).tasks.lookup "1000_0").map OCRTask.status =
      some .completed :=
  ⟨rfl, rfl, rfl⟩

/-- C1 (amended): `completed` and `failed` are final, and `cancel` and
`cleanup` never change any terminal status (cleanup may delete the row). The
exceptions are exactly: a monitor commit for the same task while its monitor
is still outstanding (which happens when the task was cancelled before its
worker outcome arrived, and overwrites `cancelled` with the worker's
outcome), and a successful submit whose generated task id collides with the
row (which replaces the row, see C7). Formally: under a key-unique task
table, any non-submit operation leaves the status of a terminal task
unchanged whenever the operation is not a pending monitor commit for that
very task. -/
theorem c1_terminal_amended (s : MgrState) (e : Ev) (tid : String) (t t1 : OCRTask)
    (hnd : (s.tasks.map Prod.fst).Nodup)
    (hl : s.tasks.lookup tid = some t)
    (hterm : terminalB t.status = true)
    (hnsub : ∀ p ft nowMs pyHash, e ≠ .submit p ft nowMs pyHash)
    (hmon : ∀ o tEnd, e = .monitorCommit tid o tEnd → tid ∉ s.monitors)
    (hl1 : (step s e).tasks.lookup tid = some t1) :
    t1.status = t.status := by
  cases e with
  | submit p ft nowMs pyHash => exact absurd rfl (hnsub p ft nowMs pyHash)
  | monitorCommit tid2 o tEnd =>
      have hstep : step s (.monitorCommit tid2 o tEnd) = monitor_commit s tid2 o tEnd := rfl
      rw [hstep] at hl1
      unfold monitor_commit at hl1
      by_cases hm : tid2 ∈ s.monitors
      · rw [if_pos hm] at hl1
        by_cases heq : tid2 = tid
        · subst heq
          exact absurd hm (hmon o tEnd rfl)
        · cases hl2 : List.lookup tid2 s.tasks with
          | none =>
              simp only [hl2] at hl1
              have : List.lookup tid s.tasks = some t1 := hl1
              rw [hl] at this
              simp at this
              rw [this]
          | some t2 =>
              simp only [hl2] at hl1
              have hne : tid ≠ tid2 := fun h2 => heq h2.symm
              have : (updateTask s.tasks tid2 (fun t0 => commitOutcome t0 o tEnd)).lookup tid =
                  s.tasks.lookup tid := lookup_updateTask_ne _ _ _ _ hne
              rw [show ((updateTask s.tasks tid2 fun t0 => commitOutcome t0 o tEnd) :
                  List (String × OCRTask)).lookup tid = some t1 from hl1, hl] at this
              have ht1 : t1 = t := by simpa using this
              rw [ht1]
      · rw [if_neg hm] at hl1
        rw [hl] at hl1
        have ht1 : t = t1 := by simpa using hl1
        rw [← ht1]
  | cancel tid2 =>
      have hstep : step s (.cancel tid2) = (cancel_task s tid2).2 := rfl
      rw [hstep] at hl1
      unfold cancel_task at hl1
      cases hl2 : s.tasks.lookup tid2 with
      | none =>
          simp only [hl2] at hl1
          rw [hl] at hl1
          have ht1 : t = t1 := by simpa using hl1
          rw [← ht1]
      | some t2 =>
          simp only [hl2] at hl1
          by_cases hst : t2.status = TaskStatus.pending ∨ t2.status = TaskStatus.running
          · rw [if_pos hst] at hl1
            simp only at hl1
            by_cases heq : tid2 = tid
            · subst heq
              rw [hl] at hl2
              have ht2 : t = t2 := by simpa using hl2
              rw [← ht2] at hst
              rcases hst with h2 | h2 <;> rw [h2] at hterm <;> simp [terminalB] at hterm
            · have hne : tid ≠ tid2 := fun h2 => heq h2.symm
              rw [lookup_updateTask_ne _ _ _ _ hne, hl] at hl1
              have ht1 : t = t1 := by simpa using hl1
              rw [← ht1]
          · rw [if_neg hst] at hl1
            simp only at hl1
            rw [hl] at hl1
            have ht1 : t = t1 := by simpa using hl1
            rw [← ht1]
  | cleanup maxAgeHours nowS =>
      have hstep : step s (.cleanup maxAgeHours nowS) = cleanup_completed_tasks s maxAgeHours nowS :=
        rfl
      rw [hstep] at hl1
      unfold cleanup_completed_tasks at hl1
      have := lookup_filter_of_nodup s.tasks
        (fun kv => ! sweepableB kv.2 (maxAgeHours * 3600) nowS) tid t t1 hnd hl hl1
      rw [this]
  | start =>
      have hstep : step s .start = start_mgr s := rfl
      rw [hstep] at hl1
      unfold start_mgr at hl1
      by_cases hex : s.executor_up
      · rw [if_pos hex, hl] at hl1
        have ht1 : t = t1 := by simpa using hl1
        rw [← ht1]
      · rw [if_neg hex] at hl1
        have : List.lookup tid s.tasks = some t1 := hl1
        rw [hl] at this
        have ht1 : t = t1 := by simpa using this
        rw [← ht1]
  | stop =>
      have hstep : step s .stop = stop_mgr s := rfl
      rw [hstep] at hl1
      unfold stop_mgr at hl1
      have : List.lookup tid s.tasks = some t1 := hl1
      rw [hl] at this
      have ht1 : t = t1 := by simpa using this
      rw [← ht1]

/-- C1 witness: the amended finality applied to the completed task of `sDone`
under a `cancel` call, which leaves its status `completed`. -/
theorem c1_terminal_amended_witness :
    terminalB tDone.status = true ∧
    sDone.tasks.lookup "1000_0" = some tDone ∧
    (step sDone (.cancel "1000_0")).tasks.lookup "1000_0" = some tDone ∧
    tDone.status = tDone.status :=
  ⟨rfl, rfl, rfl,
    c1_terminal_amended sDone (.cancel "1000_0") "1000_0" tDone tDone (by decide) rfl rfl
      (fun _ _ _ _ hcon => Ev.noConfusion hcon)
      (fun _ _ hcon => Ev.noConfusion hcon) rfl⟩

theorem commitOutcome_file_path (t : OCRTask) (o : WorkerOutcome) (tEnd : Int) :
    (commitOutcome t o tEnd).file_path = t.file_path := by
  unfold commitOutcome
  cases o with
  | res hasKey success msg err payload => cases hasKey <;> cases success <;> rfl
  | exn emsg => rfl

theorem activeB_commitOutcome (t : OCRTask) (o : WorkerOutcome) (tEnd : Int) :
    activeB (commitOutcome t o tEnd) = false := by
  unfold commitOutcome activeB
  cases o with
  | res hasKey success msg err payload => cases hasKey <;> cases success <;> rfl
  | exn emsg => rfl

theorem activeB_not_sweepable (t : OCRTask) (a n : Int) (h : activeB t = true) :
    sweepableB t a n = false := by
  unfold activeB at h
  unfold sweepableB terminalB
  have hst : t.status = TaskStatus.pending ∨ t.status = TaskStatus.running := by
    simpa using h
  rcases hst with h2 | h2 <;> rw [h2] <;> rfl

theorem two_le_countP {α : Type} (pred : α → Bool) (a b : α) (hne : a ≠ b)
    (hpa : pred a = true) (hpb : pred b = true) :
    ∀ l : List α, a ∈ l → b ∈ l → 2 ≤ l.countP pred := by
  intro l
  induction l with
  | nil => intro ha; simp at ha
  | cons h t ih =>
      intro ha hb
      rw [List.countP_cons]
      rcases List.mem_cons.mp ha with hha | hta
      · have hbt : b ∈ t := by
          rcases List.mem_cons.mp hb with hhb | htb
          · exact absurd (hha ▸ hhb ▸ rfl) hne
          · exact htb
        have h1 : 0 < t.countP pred := List.countP_pos_iff.mpr ⟨b, hbt, hpb⟩
        have hph : pred h = true := hha ▸ hpa
        have hite : (if pred h then 1 else 0) = 1 := by rw [hph]; simp
        rw [hite]
        omega
      · rcases List.mem_cons.mp hb with hhb | htb
        · have h1 : 0 < t.countP pred := List.countP_pos_iff.mpr ⟨a, hta, hpa⟩
          have hph : pred h = true := hhb ▸ hpb
          have hite : (if pred h then 1 else 0) = 1 := by rw [hph]; simp
          rw [hite]
          omega
        · have h2 := ih hta htb
          omega

theorem countP_updateTask (tid : String) (f : OCRTask → OCRTask)
    (pred : String × OCRTask → Bool) :
    ∀ (l : List (String × OCRTask)) (t : OCRTask), (l.map Prod.fst).Nodup →
      l.lookup tid = some t →
      (updateTask l tid f).countP pred + (if pred (tid, t) then 1 else 0) =
        l.countP pred + (if pred (tid, f t) then 1 else 0) := by
  intro l
  induction l with
  | nil => intro t _ hl; simp [List.lookup] at hl
  | cons kv rest ih =>
      intro t hnd hl
      obtain ⟨a, b⟩ := kv
      simp only [List.map_cons, List.nodup_cons] at hnd
      by_cases hk : tid = a
      · subst hk
        simp only [List.lookup, beq_self_eq_true] at hl
        have hb : b = t := by simpa using hl
        subst hb
        have hrest : ∀ kv2 ∈ rest, kv2.1 ≠ tid := by
          intro kv2 hkv2 he
          exact hnd.1 (he ▸ List.mem_map_of_mem Prod.fst hkv2)
        have hrw : updateTask ((tid, b) :: rest) tid f = (tid, f b) :: rest := by
          unfold updateTask
          rw [List.map_cons, if_pos (show (tid, b).1 = tid from rfl)]
          have := updateTask_eq_of_forall_ne tid f rest hrest
          unfold updateTask at this
          rw [this]
        rw [hrw, List.countP_cons, List.countP_cons]
        by_cases h1 : pred (tid, b) <;> by_cases h2 : pred (tid, f b) <;>
          simp [h1, h2]
      · have hbq : (tid == a) = false := by
          simp only [beq_eq_false_iff_ne, ne_eq]
          exact hk
        simp only [List.lookup, hbq] at hl
        have hrw : updateTask ((a, b) :: rest) tid f = (a, b) :: updateTask rest tid f := by
          unfold updateTask
          rw [List.map_cons, if_neg (show ¬ (a, b).1 = tid from fun he => hk he.symm)]
        rw [hrw, List.countP_cons, List.countP_cons]
        have := ih t hnd.2 hl
        omega

theorem updateTask_append_singleton (l : List (String × OCRTask)) (tid : String)
    (t : OCRTask) (f : OCRTask → OCRTask) (h : l.lookup tid = none) :
    updateTask (l ++ [(tid, t)]) tid f = l ++ [(tid, f t)] := by
  unfold updateTask
  rw [List.map_append]
  have hall := (lookup_eq_none_iff l tid).1 h
  have hleft := updateTask_eq_of_forall_ne tid f l hall
  unfold updateTask at hleft
  rw [hleft]
  congr 1
  simp

theorem countP_filter_keep {α : Type} (pred keep : α → Bool)
    (himp : ∀ a, pred a = true → keep a = true) :
    ∀ l : List α, (l.filter keep).countP pred = l.countP pred := by
  intro l
  induction l with
  | nil => simp
  | cons h t ih =>
      by_cases hq : keep h
      · rw [List.filter_cons_of_pos hq, List.countP_cons, List.countP_cons, ih]
      · rw [List.filter_cons_of_neg hq, List.countP_cons, ih]
        have hp : pred h = false := by
          cases hph : pred h with
          | false => rfl
          | true => exact absurd (himp h hph) hq
        rw [hp]
        simp

theorem lookup_filter_keep_of_nodup {β : Type} (q : String × β → Bool) (k : String) (v : β) :
    ∀ l : List (String × β), (l.map Prod.fst).Nodup → l.lookup k = some v →
      q (k, v) = true → (l.filter q).lookup k = some v := by
  intro l
  induction l with
  | nil => intro _ hl; simp [List.lookup] at hl
  | cons kv rest ih =>
      intro hnd hl hq
      obtain ⟨a, b⟩ := kv
      simp only [List.map_cons, List.nodup_cons] at hnd
      by_cases hk : k = a
      · subst hk
        simp only [List.lookup, beq_self_eq_true] at hl
        have hb : b = v := by simpa using hl
        subst hb
        rw [List.filter_cons_of_pos hq]
        simp [List.lookup]
      · have hbq : (k == a) = false := by
          simp only [beq_eq_false_iff_ne, ne_eq]
          exact hk
        simp only [List.lookup, hbq] at hl
        by_cases hqa : q (a, b)
        · rw [List.filter_cons_of_pos hqa]
          simp only [List.lookup, hbq]
          exact ih hnd.2 hl hq
        · rw [List.filter_cons_of_neg hqa]
          exact ih hnd.2 hl hq

theorem activeB_of_running {t : OCRTask} (h : t.status = .running) : activeB t = true := by
  unfold activeB
  rw [h]
  rfl

theorem goodInv_cleanup (s : MgrState) (maxAgeHours nowS : Int) (hinv : goodInv s) :
    goodInv (cleanup_completed_tasks s maxAgeHours nowS) := by
  obtain ⟨hndT, hndL, hcount, hactive, hndM, hmon⟩ := hinv
  unfold cleanup_completed_tasks
  have himp : ∀ kv : String × OCRTask, activeB kv.2 = true →
      (! sweepableB kv.2 (maxAgeHours * 3600) nowS) = true := by
    intro kv hact
    rw [activeB_not_sweepable _ _ _ hact]
    rfl
  refine ⟨?_, hndL, ?_, ?_, hndM, ?_⟩
  · exact List.Sublist.nodup (List.Sublist.map Prod.fst (List.filter_sublist s.tasks)) hndT
  · intro q hq
    show activeCountL (s.tasks.filter fun kv => ! sweepableB kv.2 (maxAgeHours * 3600) nowS) q = 1
    unfold activeCountL
    rw [countP_filter_keep _ _ ?impq s.tasks]
    case impq =>
      intro kv hkv
      exact himp kv (Bool.and_elim_right hkv)
    exact hcount q hq
  · intro kv hkv hact
    exact hactive kv (List.mem_of_mem_filter hkv) hact
  · intro tid hm2
    obtain ⟨t, hlt, hrun⟩ := hmon tid hm2
    refine ⟨t, ?_, hrun⟩
    apply lookup_filter_keep_of_nodup _ _ _ _ hndT hlt
    exact himp (tid, t) (activeB_of_running hrun)

theorem goodInv_commit (s : MgrState) (tid : String) (o : WorkerOutcome) (tEnd : Int)
    (hinv : goodInv s) : goodInv (monitor_commit s tid o tEnd) := by
  obtain ⟨hndT, hndL, hcount, hactive, hndM, hmon⟩ := hinv
  unfold monitor_commit
  by_cases hm : tid ∈ s.monitors
  · rw [if_pos hm]
    obtain ⟨t, hlt, hrun⟩ := hmon tid hm
    simp only [hlt]
    have hactT : activeB t = true := activeB_of_running hrun
    have htp : t.file_path ∈ s.locked_files := hactive (tid, t) (lookup_mem hlt) hactT
    have hcnt1 : activeCountL s.tasks t.file_path = 1 := hcount _ htp
    refine ⟨?_, ?_, ?_, ?_, ?_, ?_⟩
    · show ((updateTask s.tasks tid fun t0 => commitOutcome t0 o tEnd).map Prod.fst).Nodup
      rw [updateTask_keys]
      exact hndT
    · exact List.Nodup.filter _ hndL
    · intro q hq
      have hqmem : q ∈ s.locked_files := List.mem_of_mem_filter hq
      have hqne : q ≠ t.file_path := by
        have := List.of_mem_filter hq
        simpa using this
      have hkey := countP_updateTask tid (fun t0 => commitOutcome t0 o tEnd)
        (fun kv => decide (kv.2.file_path = q) && activeB kv.2) s.tasks t hndT hlt
      have hp1 : (decide (t.file_path = q) && activeB t) = false := by
        rw [decide_eq_false (fun h2 => hqne h2.symm)]
        rfl
      have hp2 : (decide ((commitOutcome t o tEnd).file_path = q) &&
          activeB (commitOutcome t o tEnd)) = false := by
        rw [activeB_commitOutcome]
        simp
      simp only [hp1, hp2, Bool.false_eq_true, ite_false, Nat.add_zero] at hkey
      have hq1 := hcount q hqmem
      unfold activeCountL at hq1 ⊢
      exact hkey.trans hq1
    · intro kv2 hkv2 hact2
      unfold updateTask at hkv2
      obtain ⟨kv, hkv, hkveq⟩ := List.mem_map.mp hkv2
      by_cases hkey : kv.1 = tid
      · exfalso
        rw [if_pos hkey] at hkveq
        rw [← hkveq] at hact2
        simp only at hact2
        rw [activeB_commitOutcome] at hact2
        exact Bool.false_ne_true hact2
      · rw [if_neg hkey] at hkveq
        rw [← hkveq]
        have hpl := hactive kv hkv (by rw [hkveq]; exact hact2)
        unfold unlock_file
        rw [List.mem_filter]
        refine ⟨hpl, ?_⟩
        have hne : kv.2.file_path ≠ t.file_path := by
          intro hcon
          have hkvne : kv ≠ (tid, t) := fun he => hkey (by rw [he])
          have hpa : (decide (kv.2.file_path = t.file_path) && activeB kv.2) = true := by
            rw [hcon]
            simp only [decide_eq_true_eq]
            rw [hkveq]
            simp [hact2]
          have hpb : (decide ((tid, t).2.file_path = t.file_path) && activeB (tid, t).2) = true := by
            simp [hactT]
          have h2 := two_le_countP
            (fun kv2 => decide (kv2.2.file_path = t.file_path) && activeB kv2.2)
            kv (tid, t) hkvne hpa hpb s.tasks hkv (lookup_mem hlt)
          unfold activeCountL at hcnt1
          omega
        simpa using hne
    · exact List.Nodup.erase tid hndM
    · intro tid2 hm2
      have hmem : tid2 ∈ s.monitors := List.mem_of_mem_erase hm2
      have hne2 : tid2 ≠ tid := by
        intro he
        subst he
        exact (List.Nodup.not_mem_erase hndM) hm2
      obtain ⟨t2, hlt2, hrun2⟩ := hmon tid2 hmem
      refine ⟨t2, ?_, hrun2⟩
      show (updateTask s.tasks tid fun t0 => commitOutcome t0 o tEnd).lookup tid2 = some t2
      rw [lookup_updateTask_ne _ _ _ _ hne2]
      exact hlt2
  · rw [if_neg hm]
    exact ⟨hndT, hndL, hcount, hactive, hndM, hmon⟩

theorem goodInv_submit (s : MgrState) (p0 ft : String) (nowMs pyHash : Int)
    (hinv : goodInv s) (hfresh : s.tasks.lookup (genTaskId nowMs pyHash) = none) :
    goodInv (step s (.submit p0 ft nowMs pyHash)) := by
  obtain ⟨hndT, hndL, hcount, hactive, hndM, hmon⟩ := hinv
  by_cases hsd : s.shutdown
  · rw [step_submit_of_shutdown s p0 ft nowMs pyHash hsd]
    exact ⟨hndT, hndL, hcount, hactive, hndM, hmon⟩
  · have hsd2 : s.shutdown = false := by simpa using hsd
    by_cases hlk : is_file_locked s p0
    · have hsub : submit_task s p0 ft nowMs pyHash = Except.error SubmitErr.alreadyLocked := by
        unfold submit_task submit_core
        rw [hsd2, hlk]
        simp
      rw [show step s (.submit p0 ft nowMs pyHash) = s from by simp [step, hsub]]
      exact ⟨hndT, hndL, hcount, hactive, hndM, hmon⟩
    · have hlk2 : is_file_locked s p0 = false := by simpa using hlk
      have hp0 : p0 ∉ s.locked_files := by
        unfold is_file_locked at hlk2
        simpa using hlk2
      have hsub : submit_task s p0 ft nowMs pyHash = Except.ok (genTaskId nowMs pyHash,
          { tasks := updateTask (setEntry s.tasks (genTaskId nowMs pyHash)
                (mkPendingTask (genTaskId nowMs pyHash) p0 ft)) (genTaskId nowMs pyHash)
                (fun t => { t with status := .running, start_time := some nowMs,
                                    message := "processing" }),
            locked_files := lock_file s.locked_files p0,
            executor_up := true, shutdown := s.shutdown,
            monitors := genTaskId nowMs pyHash :: s.monitors }) := by
        unfold submit_task submit_core start_task start_mgr
        rw [hsd2, hlk2]
        by_cases hex : s.executor_up <;> simp [hex]
      rw [show step s (.submit p0 ft nowMs pyHash) =
          { tasks := updateTask (setEntry s.tasks (genTaskId nowMs pyHash)
                (mkPendingTask (genTaskId nowMs pyHash) p0 ft)) (genTaskId nowMs pyHash)
                (fun t => { t with status := .running, start_time := some nowMs,
                                    message := "processing" }),
            locked_files := lock_file s.locked_files p0,
            executor_up := true, shutdown := s.shutdown,
            monitors := genTaskId nowMs pyHash :: s.monitors } from by simp [step, hsub]]
      have hset := setEntry_of_lookup_none (mkPendingTask (genTaskId nowMs pyHash) p0 ft) hfresh
      have htasks : updateTask (setEntry s.tasks (genTaskId nowMs pyHash)
            (mkPendingTask (genTaskId nowMs pyHash) p0 ft)) (genTaskId nowMs pyHash)
            (fun t => { t with status := .running, start_time := some nowMs,
                                message := "processing" }) =
          s.tasks ++ [(genTaskId nowMs pyHash,
            { mkPendingTask (genTaskId nowMs pyHash) p0 ft with
                status := .running, start_time := some nowMs, message := "processing" })] := by
        rw [hset]
        exact updateTask_append_singleton _ _ _ _ hfresh
      have hlock : lock_file s.locked_files p0 = s.locked_files ++ [p0] := by
        unfold lock_file
        rw [if_neg hp0]
      have hnotin : genTaskId nowMs pyHash ∉ s.tasks.map Prod.fst := by
        intro hmem
        obtain ⟨kv, hkv, he⟩ := List.mem_map.mp hmem
        exact ((lookup_eq_none_iff _ _).1 hfresh kv hkv) he
      unfold goodInv
      dsimp only
      refine ⟨?_, ?_, ?_, ?_, ?_, ?_⟩
      · rw [htasks, List.map_append]
        refine List.Nodup.append hndT (by simp) ?_
        intro a ha hb
        simp only [List.map_cons, List.map_nil, List.mem_singleton] at hb
        exact hnotin (hb ▸ ha)
      · rw [hlock]
        refine List.Nodup.append hndL (List.nodup_singleton p0) ?_
        intro a ha hb
        simp only [List.mem_singleton] at hb
        exact hp0 (hb ▸ ha)
      · intro q hq
        rw [hlock] at hq
        unfold activeCountL
        rw [htasks, List.countP_append]
        rcases List.mem_append.mp hq with hq1 | hq2
        · have hqne : q ≠ p0 := fun he => hp0 (he ▸ hq1)
          have hqne2 : ¬ (p0 = q) := fun he => hqne he.symm
          have hsing : List.countP
              (fun kv => decide (kv.2.file_path = q) && activeB kv.2)
              [(genTaskId nowMs pyHash,
                { mkPendingTask (genTaskId nowMs pyHash) p0 ft with
                    status := .running, start_time := some nowMs,
                    message := "processing" })] = 0 := by
            simp [mkPendingTask, hqne2]
          rw [hsing]
          have hone := hcount q hq1
          unfold activeCountL at hone
          omega
        · have hq2e : q = p0 := by simpa using hq2
          subst hq2e
          have hzero : List.countP
              (fun kv => decide (kv.2.file_path = q) && activeB kv.2) s.tasks = 0 := by
            by_contra hpos
            have hpos2 : 0 < List.countP
                (fun kv => decide (kv.2.file_path = q) && activeB kv.2) s.tasks :=
              Nat.pos_of_ne_zero hpos
            obtain ⟨kv, hkv, hpred⟩ := List.countP_pos_iff.mp hpos2
            have hand := Bool.and_eq_true_iff.mp hpred
            have hpath : kv.2.file_path = q := by simpa using hand.1
            have := hactive kv hkv hand.2
            rw [hpath] at this
            exact hp0 this
          rw [hzero]
          simp [mkPendingTask, activeB]
      · intro kv hkv hact
        rw [htasks] at hkv
        rw [hlock]
        rcases List.mem_append.mp hkv with hkv1 | hkv2
        · exact List.mem_append_left _ (hactive kv hkv1 hact)
        · have hkve : kv = (genTaskId nowMs pyHash,
              { mkPendingTask (genTaskId nowMs pyHash) p0 ft with
                  status := .running, start_time := some nowMs,
                  message := "processing" }) := by simpa using hkv2
          rw [hkve]
          simp [mkPendingTask]
      · rw [List.nodup_cons]
        refine ⟨?_, hndM⟩
        intro hmem
        obtain ⟨t2, hlt2, _⟩ := hmon _ hmem
        rw [hfresh] at hlt2
        exact Option.noConfusion hlt2
      · intro tid2 hm2
        rcases List.mem_cons.mp hm2 with he | hmem
        · subst he
          refine ⟨{ mkPendingTask (genTaskId nowMs pyHash) p0 ft with
              status := .running, start_time := some nowMs, message := "processing" }, ?_, rfl⟩
          rw [htasks, lookup_append_right _ hfresh]
          simp [List.lookup]
        · obtain ⟨t2, hlt2, hrun2⟩ := hmon tid2 hmem
          have hne2 : tid2 ≠ genTaskId nowMs pyHash := by
            intro he
            rw [he, hfresh] at hlt2
            exact Option.noConfusion hlt2
          refine ⟨t2, ?_, hrun2⟩
          rw [htasks, lookup_append_singleton_ne _ _ _ _ hne2]
          exact hlt2

theorem goodInv_step (s : MgrState) (e : Ev) (hinv : goodInv s) (hge : goodEv s e = true) :
    goodInv (step s e) := by
  cases e with
  | submit p0 ft nowMs pyHash =>
      have hfresh : s.tasks.lookup (genTaskId nowMs pyHash) = none := by
        have h2 : (s.tasks.lookup (genTaskId nowMs pyHash)).isNone = true := by
          simpa [goodEv] using hge
        exact Option.isNone_iff_eq_none.mp h2
      exact goodInv_submit s p0 ft nowMs pyHash hinv hfresh
  | monitorCommit tid o tEnd => exact goodInv_commit s tid o tEnd hinv
  | cancel tid => simp [goodEv] at hge
  | cleanup maxAgeHours nowS => exact goodInv_cleanup s maxAgeHours nowS hinv
  | start =>
      obtain ⟨h1, h2, h3, h4, h5, h6⟩ := hinv
      show goodInv (start_mgr s)
      unfold start_mgr
      by_cases hex : s.executor_up
      · rw [if_pos hex]
        exact ⟨h1, h2, h3, h4, h5, h6⟩
      · rw [if_neg hex]
        exact ⟨h1, h2, h3, h4, h5, h6⟩
  | stop =>
      obtain ⟨h1, h2, h3, h4, h5, h6⟩ := hinv
      exact ⟨h1, h2, h3, h4, h5, h6⟩

theorem goodInv_mgrInit : goodInv mgrInit := by
  refine ⟨?_, ?_, ?_, ?_, ?_, ?_⟩ <;> simp [mgrInit, activeCountL]

theorem goodInv_run (evs : List Ev) :
    ∀ s, goodInv s → goodTrace s evs = true → goodInv (runFrom s evs) := by
  induction evs with
  | nil =>
      intro s h _
      simpa [runFrom] using h
  | cons e rest ih =>
      intro s h hg
      have hand := Bool.and_eq_true_iff.mp (by simpa [goodTrace] using hg)
      simp only [runFrom, List.foldl_cons]
      exact ih (step s e) (goodInv_step s e h hand.1) hand.2

/-- C2 (corrected), counterexample: cancel a running task for `p` (which
unlocks `p`), resubmit `p`, then let the first task's stale monitor commit:
its unconditional `unlock_file` releases the second task's lock, leaving a
running task for `p` with `p` not in the Lock Set. -/
theorem c2_lock_invariant_counterexample :
    ((run resubmitTrace).tasks.lookup "2000_0").map OCRTask.status = some .running ∧
    ((run resubmitTrace).tasks.lookup "2000_0").map OCRTask.file_path = some "p" ∧
    (run resubmitTrace).locked_files = [] :=
  ⟨rfl, rfl, rfl⟩

/-- C2 (amended): along every trace that contains no `cancel` and in which
every submit's generated task id is fresh, the invariant holds at every
reachable state: a path is in the Lock Set iff some task for it is pending or
running, and there is at most one such task per path. With a cancel of a
running task followed by a resubmission (or with a task id collision) the
stale monitor's unconditional unlock can break the invariant. -/
theorem c2_lock_invariant_amended (evs : List Ev) (hg : goodTrace mgrInit evs = true)
    (p : String) :
    (p ∈ (run evs).locked_files ↔
      ∃ kv ∈ (run evs).tasks, kv.2.file_path = p ∧ activeB kv.2 = true) ∧
    activeCountL (run evs).tasks p ≤ 1 := by
  have hinv := goodInv_run evs mgrInit goodInv_mgrInit hg
  obtain ⟨hndT, hndL, hcount, hactive, hndM, hmon⟩ := hinv
  constructor
  · constructor
    · intro hp
      have h1 := hcount p hp
      have hpos : 0 < activeCountL (run evs).tasks p := by
        unfold run
        omega
      unfold activeCountL at hpos
      obtain ⟨kv, hkv, hpred⟩ := List.countP_pos_iff.mp hpos
      have hand := Bool.and_eq_true_iff.mp hpred
      exact ⟨kv, hkv, by simpa using hand.1, hand.2⟩
    · rintro ⟨kv, hkv, hpath, hact⟩
      have hmem := hactive kv hkv hact
      rw [hpath] at hmem
      exact hmem
  · by_cases hp : p ∈ (run evs).locked_files
    · have h1 := hcount p hp
      unfold run
      omega
    · by_contra hgt
      have hpos : 0 < activeCountL (run evs).tasks p := by omega
      unfold activeCountL at hpos
      obtain ⟨kv, hkv, hpred⟩ := List.countP_pos_iff.mp hpos
      have hand := Bool.and_eq_true_iff.mp hpred
      have hmem := hactive kv hkv hand.2
      rw [show kv.2.file_path = p from by simpa using hand.1] at hmem
      exact hp hmem

/-- C2 witness: the invariant evaluated after a benign submit, commit,
resubmit trace for the same path. -/
theorem c2_lock_invariant_amended_witness :
    goodTrace mgrInit goodTraceW = true ∧
    (("p" ∈ (run goodTraceW).locked_files ↔
      ∃ kv ∈ (run goodTraceW).tasks, kv.2.file_path = "p" ∧ activeB kv.2 = true) ∧
      activeCountL (run goodTraceW).tasks "p" ≤ 1) :=
  ⟨by decide, c2_lock_invariant_amended goodTraceW (by decide) "p"⟩

theorem getFileInfo_path (fs : FS) (p : String) (info : FileInfo)
    (h : getFileInfo fs p = some info) : info.file_path = p := by
  unfold getFileInfo at h
  cases hfs : fs p with
  | none => rw [hfs] at h; exact Option.noConfusion h
  | some st =>
      rw [hfs] at h
      injection h with h3
      rw [← h3]

theorem mem_setEntry {α : Type} {l : List (String × α)} {key : String} {v : α}
    {kv : String × α} (h : kv ∈ setEntry l key v) : kv = (key, v) ∨ kv ∈ l := by
  unfold setEntry at h
  by_cases ha : l.any (fun kv2 => kv2.1 = key)
  · rw [if_pos ha] at h
    obtain ⟨kv2, hkv2, he⟩ := List.mem_map.mp h
    by_cases hk : kv2.1 = key
    · rw [if_pos hk] at he
      exact Or.inl he.symm
    · rw [if_neg hk] at he
      exact Or.inr (he ▸ hkv2)
  · rw [if_neg (by simpa using ha)] at h
    rcases List.mem_append.mp h with h1 | h2
    · exact Or.inr h1
    · exact Or.inl (by simpa using h2)

theorem lookup_ne_none_of_mem_keys {α : Type} {l : List (String × α)} {k : String}
    (h : k ∈ l.map Prod.fst) : l.lookup k ≠ none := by
  intro hn
  obtain ⟨kv, hkv, he⟩ := List.mem_map.mp h
  exact ((lookup_eq_none_iff l k).1 hn) kv hkv he

theorem wf_update_file_cache (fs : FS) (now : DT) (cache : List (String × FileInfo))
    (p : String) (info : FileInfo)
    (hwf : ∀ kv ∈ cache, kv.2.file_path = kv.1) (hinfo : info.file_path = p) :
    ∀ kv ∈ update_file_cache fs now cache p info, kv.2.file_path = kv.1 := by
  intro kv hkv
  unfold update_file_cache at hkv
  rcases mem_setEntry hkv with he | hmem
  · rw [he]
    exact hinfo
  · exact hwf kv hmem

theorem wf_classifyStep (fs : FS) (year : Int) (now : DT) (acc : ScanAcc) (p : String)
    (hwf : ∀ kv ∈ acc.cache, kv.2.file_path = kv.1) :
    ∀ kv ∈ (classifyStep fs year now acc p).cache, kv.2.file_path = kv.1 := by
  unfold classifyStep
  cases hl : acc.cache.lookup p with
  | none =>
      dsimp only
      cases hgi : getFileInfo fs p with
      | none => exact hwf
      | some info =>
          dsimp only
          by_cases hy : isCurrentYearFile year info
          · rw [if_pos hy]
            exact wf_update_file_cache fs now acc.cache p info hwf (getFileInfo_path fs p info hgi)
          · rw [if_neg hy]
            exact hwf
  | some cachedInfo =>
      dsimp only
      by_cases hch : is_file_changed acc.cache fs p
      · rw [if_pos hch]
        cases hgi : getFileInfo fs p with
        | none => exact hwf
        | some info =>
            dsimp only
            by_cases hy : isCurrentYearFile year info
            · rw [if_pos hy]
              exact wf_update_file_cache fs now acc.cache p info hwf (getFileInfo_path fs p info hgi)
            · rw [if_neg hy]
              exact hwf
      · rw [if_neg hch]
        by_cases hy : isCurrentYearFile year cachedInfo
        · rw [if_pos hy]
          exact hwf
        · rw [if_neg hy]
          exact hwf

theorem keys_classifyStep (fs : FS) (year : Int) (now : DT) (acc : ScanAcc) (p k : String)
    (hk : k ∈ acc.cache.map Prod.fst) :
    k ∈ (classifyStep fs year now acc p).cache.map Prod.fst := by
  unfold classifyStep
  cases hl : acc.cache.lookup p with
  | none =>
      dsimp only
      cases hgi : getFileInfo fs p with
      | none => exact hk
      | some info =>
          dsimp only
          by_cases hy : isCurrentYearFile year info
          · rw [if_pos hy]
            exact setEntry_keys_sub _ _ _ _ hk
          · rw [if_neg hy]
            exact hk
  | some cachedInfo =>
      dsimp only
      by_cases hch : is_file_changed acc.cache fs p
      · rw [if_pos hch]
        cases hgi : getFileInfo fs p with
        | none => exact hk
        | some info =>
            dsimp only
            by_cases hy : isCurrentYearFile year info
            · rw [if_pos hy]
              exact setEntry_keys_sub _ _ _ _ hk
            · rw [if_neg hy]
              exact hk
      · rw [if_neg hch]
        by_cases hy : isCurrentYearFile year cachedInfo
        · rw [if_pos hy]
          exact hk
        · rw [if_neg hy]
          exact hk

theorem keys_classify_fold (fs : FS) (year : Int) (now : DT) (k : String) :
    ∀ (todo : List String) (acc : ScanAcc), k ∈ acc.cache.map Prod.fst →
      k ∈ (todo.foldl (classifyStep fs year now) acc).cache.map Prod.fst := by
  intro todo
  induction todo with
  | nil => intro acc hk; simpa using hk
  | cons p rest ih =>
      intro acc hk
      simp only [List.foldl_cons]
      exact ih _ (keys_classifyStep fs year now acc p k hk)

theorem wf_classify_fold (fs : FS) (year : Int) (now : DT) :
    ∀ (todo : List String) (acc : ScanAcc), (∀ kv ∈ acc.cache, kv.2.file_path = kv.1) →
      ∀ kv ∈ (todo.foldl (classifyStep fs year now) acc).cache, kv.2.file_path = kv.1 := by
  intro todo
  induction todo with
  | nil => intro acc h; simpa using h
  | cons p rest ih =>
      intro acc h
      simp only [List.foldl_cons]
      exact ih _ (wf_classifyStep fs year now acc p h)

theorem bucketPathCount_classifyStep (fs : FS) (year : Int) (now : DT) (acc : ScanAcc)
    (p q : String) (hwf : ∀ kv ∈ acc.cache, kv.2.file_path = kv.1) :
    bucketPathCount (classifyStep fs year now acc p) q ≤
      bucketPathCount acc q + (if p = q then 1 else 0) := by
  unfold bucketPathCount classifyStep
  cases hl : acc.cache.lookup p with
  | none =>
      dsimp only
      cases hgi : getFileInfo fs p with
      | none => exact Nat.le_add_right _ _
      | some info =>
          dsimp only
          by_cases hy : isCurrentYearFile year info
          · rw [if_pos hy]
            have hpath : info.file_path = p := getFileInfo_path fs p info hgi
            by_cases hpq : p = q <;>
              simp [List.countP_append, List.countP_cons, hpath, hpq] <;> omega
          · rw [if_neg hy]
            exact Nat.le_add_right _ _
  | some cachedInfo =>
      dsimp only
      by_cases hch : is_file_changed acc.cache fs p
      · rw [if_pos hch]
        cases hgi : getFileInfo fs p with
        | none => exact Nat.le_add_right _ _
        | some info =>
            dsimp only
            by_cases hy : isCurrentYearFile year info
            · rw [if_pos hy]
              have hpath : info.file_path = p := getFileInfo_path fs p info hgi
              by_cases hpq : p = q <;>
                simp [List.countP_append, List.countP_cons, hpath, hpq] <;> omega
            · rw [if_neg hy]
              exact Nat.le_add_right _ _
      · rw [if_neg hch]
        by_cases hy : isCurrentYearFile year cachedInfo
        · rw [if_pos hy]
          have hpath : cachedInfo.file_path = p := hwf (p, cachedInfo) (lookup_mem hl)
          by_cases hpq : p = q <;>
            simp [List.countP_append, List.countP_cons, hpath, hpq] <;> omega
        · rw [if_neg hy]
          exact Nat.le_add_right _ _

theorem bucketPathCount_classify_fold (fs : FS) (year : Int) (now : DT) (q : String) :
    ∀ (todo : List String) (acc : ScanAcc), (∀ kv ∈ acc.cache, kv.2.file_path = kv.1) →
      bucketPathCount (todo.foldl (classifyStep fs year now) acc) q ≤
        bucketPathCount acc q + todo.countP (fun x => decide (x = q)) := by
  intro todo
  induction todo with
  | nil => intro acc _; simp
  | cons p rest ih =>
      intro acc hwf
      simp only [List.foldl_cons, List.countP_cons]
      have h1 := ih (classifyStep fs year now acc p) (wf_classifyStep fs year now acc p hwf)
      have h2 := bucketPathCount_classifyStep fs year now acc p q hwf
      have hiteq : (if p = q then (1 : Nat) else 0) =
          (if decide (p = q) then 1 else 0) := by
        by_cases hpq : p = q <;> simp [hpq]
      rw [hiteq] at h2
      omega

theorem new_files_classifyStep (fs : FS) (year : Int) (now : DT) (acc : ScanAcc)
    (p k : String) (hk : k ∈ acc.cache.map Prod.fst)
    (hnew : ∀ i ∈ acc.new_files, i.file_path ≠ k) :
    ∀ i ∈ (classifyStep fs year now acc p).new_files, i.file_path ≠ k := by
  unfold classifyStep
  cases hl : acc.cache.lookup p with
  | none =>
      dsimp only
      cases hgi : getFileInfo fs p with
      | none => exact hnew
      | some info =>
          dsimp only
          by_cases hy : isCurrentYearFile year info
          · rw [if_pos hy]
            intro i hi
            rcases List.mem_append.mp hi with h1 | h2
            · exact hnew i h1
            · have hieq : i = info := by simpa using h2
              rw [hieq, getFileInfo_path fs p info hgi]
              intro he
              exact lookup_ne_none_of_mem_keys (he ▸ hk) hl
          · rw [if_neg hy]
            exact hnew
  | some cachedInfo =>
      dsimp only
      by_cases hch : is_file_changed acc.cache fs p
      · rw [if_pos hch]
        cases hgi : getFileInfo fs p with
        | none => exact hnew
        | some info =>
            dsimp only
            by_cases hy : isCurrentYearFile year info
            · rw [if_pos hy]
              exact hnew
            · rw [if_neg hy]
              exact hnew
      · rw [if_neg hch]
        by_cases hy : isCurrentYearFile year cachedInfo
        · rw [if_pos hy]
          exact hnew
        · rw [if_neg hy]
          exact hnew

theorem new_files_classify_fold (fs : FS) (year : Int) (now : DT) (k : String) :
    ∀ (todo : List String) (acc : ScanAcc), k ∈ acc.cache.map Prod.fst →
      (∀ i ∈ acc.new_files, i.file_path ≠ k) →
      ∀ i ∈ (todo.foldl (classifyStep fs year now) acc).new_files, i.file_path ≠ k := by
  intro todo
  induction todo with
  | nil => intro acc _ h; simpa using h
  | cons p rest ih =>
      intro acc hk hnew
      simp only [List.foldl_cons]
      exact ih _ (keys_classifyStep fs year now acc p k hk)
        (new_files_classifyStep fs year now acc p k hk hnew)

theorem nu_paths_classifyStep (fs : FS) (year : Int) (now : DT) (acc : ScanAcc)
    (p : String) (base : List String) (hp : p ∈ base)
    (h : ∀ i ∈ acc.new_files ++ acc.updated_files, i.file_path ∈ base) :
    ∀ i ∈ (classifyStep fs year now acc p).new_files ++
        (classifyStep fs year now acc p).updated_files, i.file_path ∈ base := by
  unfold classifyStep
  cases hl : acc.cache.lookup p with
  | none =>
      dsimp only
      cases hgi : getFileInfo fs p with
      | none => exact h
      | some info =>
          dsimp only
          by_cases hy : isCurrentYearFile year info
          · rw [if_pos hy]
            intro i hi
            dsimp only at hi
            rcases List.mem_append.mp hi with h1 | h2
            · rcases List.mem_append.mp h1 with h3 | h4
              · exact h i (List.mem_append_left _ h3)
              · have hieq : i = info := by simpa using h4
                rw [hieq, getFileInfo_path fs p info hgi]
                exact hp
            · exact h i (List.mem_append_right _ h2)
          · rw [if_neg hy]
            exact h
  | some cachedInfo =>
      dsimp only
      by_cases hch : is_file_changed acc.cache fs p
      · rw [if_pos hch]
        cases hgi : getFileInfo fs p with
        | none => exact h
        | some info =>
            dsimp only
            by_cases hy : isCurrentYearFile year info
            · rw [if_pos hy]
              intro i hi
              dsimp only at hi
              rcases List.mem_append.mp hi with h1 | h2
              · exact h i (List.mem_append_left _ h1)
              · rcases List.mem_append.mp h2 with h3 | h4
                · exact h i (List.mem_append_right _ h3)
                · have hieq : i = info := by simpa using h4
                  rw [hieq, getFileInfo_path fs p info hgi]
                  exact hp
            · rw [if_neg hy]
              exact h
      · rw [if_neg hch]
        by_cases hy : isCurrentYearFile year cachedInfo
        · rw [if_pos hy]
          exact h
        · rw [if_neg hy]
          exact h

theorem nu_paths_classify_fold (fs : FS) (year : Int) (now : DT) (base : List String) :
    ∀ (todo : List String) (acc : ScanAcc), (∀ x ∈ todo, x ∈ base) →
      (∀ i ∈ acc.new_files ++ acc.updated_files, i.file_path ∈ base) →
      ∀ i ∈ (todo.foldl (classifyStep fs year now) acc).new_files ++
          (todo.foldl (classifyStep fs year now) acc).updated_files, i.file_path ∈ base := by
  intro todo
  induction todo with
  | nil => intro acc _ h; simpa using h
  | cons p rest ih =>
      intro acc htodo h
      simp only [List.foldl_cons]
      exact ih _ (fun x hx => htodo x (List.mem_cons_of_mem _ hx))
        (nu_paths_classifyStep fs year now acc p base (htodo p (List.mem_cons_self p rest)) h)

theorem lookup_remove_none {p k : String} (l : List (String × FileInfo))
    (h : l.lookup p = none) : (remove_file_cache l k).lookup p = none := by
  unfold remove_file_cache
  by_cases ha : l.any (fun kv => kv.1 = k)
  · rw [if_pos ha]
    exact lookup_filter_none l _ p h
  · rw [if_neg (by simpa using ha)]
    exact h

theorem lookup_remove_self (l : List (String × FileInfo)) (k : String) :
    (remove_file_cache l k).lookup k = none := by
  unfold remove_file_cache
  by_cases ha : l.any (fun kv => kv.1 = k)
  · rw [if_pos ha]
    rw [lookup_eq_none_iff]
    intro kv hkv
    have := List.of_mem_filter hkv
    simpa using this
  · rw [if_neg (by simpa using ha)]
    rw [lookup_eq_none_iff]
    intro kv hkv he
    exact ha (List.any_eq_true.mpr ⟨kv, hkv, by simp [he]⟩)

theorem deleteLoop_ok_of_sub (current : List String) :
    ∀ (ks : List String) (cache : List (String × FileInfo)), (∀ k ∈ ks, k ∈ current) →
      deleteLoop current ks cache = Except.ok cache := by
  intro ks
  induction ks with
  | nil => intro cache _; rfl
  | cons a rest ih =>
      intro cache hall
      have ha : a ∈ current := hall a (List.mem_cons_self a rest)
      rw [show deleteLoop current (a :: rest) cache = deleteLoop current rest cache from by
        simp only [deleteLoop]
        rw [if_pos ha]]
      exact ih cache (fun k hk => hall k (List.mem_cons_of_mem _ hk))

theorem deleteLoop_error_of_missing (current : List String) (p : String) (hpc : p ∉ current) :
    ∀ (ks : List String) (cache : List (String × FileInfo)), p ∈ ks →
      ∃ k cache1, deleteLoop current ks cache = Except.error (k, cache1) ∧
        k ∉ current ∧ cache1.lookup k = none := by
  intro ks
  induction ks with
  | nil => intro cache h; simp at h
  | cons a rest ih =>
      intro cache hp
      by_cases ha : a ∈ current
      · have hpr : p ∈ rest := by
          rcases List.mem_cons.mp hp with he | hr
          · exact absurd (he ▸ ha) hpc
          · exact hr
        rw [show deleteLoop current (a :: rest) cache = deleteLoop current rest cache from by
          simp only [deleteLoop]
          rw [if_pos ha]]
        exact ih cache hpr
      · refine ⟨a, remove_file_cache cache a, ?_, ha, lookup_remove_self cache a⟩
        simp only [deleteLoop]
        rw [if_neg ha]

theorem scan_error_of_vanished (fs : FS) (year : Int) (now : DT) (walked : List String)
    (cache0 : CacheData) (p : String) (hp : p ∈ cache0.files.map Prod.fst)
    (hnw : p ∉ walked) :
    ∃ e : ScanCrash, scan_incremental fs year now walked cache0 = Except.error e ∧
      e.first_deleted ∉ walked ∧ e.cache.lookup e.first_deleted = none := by
  have hp0 : p ∈ ((⟨[], [], [], cache0.files⟩ : ScanAcc)).cache.map Prod.fst := hp
  have hkeys := keys_classify_fold fs year now p (getCurrentFiles walked)
    ⟨[], [], [], cache0.files⟩ hp0
  have hpc : p ∉ getCurrentFiles walked := fun hc =>
    hnw ((mem_getCurrentFiles walked p).mp hc)
  obtain ⟨k, cache1, hdl, hkc, hkl⟩ := deleteLoop_error_of_missing (getCurrentFiles walked)
    p hpc
    (((getCurrentFiles walked).foldl (classifyStep fs year now)
      ⟨[], [], [], cache0.files⟩).cache.map Prod.fst)
    ((getCurrentFiles walked).foldl (classifyStep fs year now)
      ⟨[], [], [], cache0.files⟩).cache hkeys
  refine ⟨⟨k, cache1⟩, ?_, ?_, hkl⟩
  · show scan_incremental fs year now walked cache0 = Except.error ⟨k, cache1⟩
    unfold scan_incremental
    simp only [hdl]
  · intro hkw
    exact hkc ((mem_getCurrentFiles walked k).mpr hkw)

theorem scan_ok_fields (fs : FS) (year : Int) (now : DT) (walked : List String)
    (cache0 : CacheData) (r : ScanResult)
    (h : scan_incremental fs year now walked cache0 = Except.ok r) :
    r.new_files = ((getCurrentFiles walked).foldl (classifyStep fs year now)
      ⟨[], [], [], cache0.files⟩).new_files ∧
    r.updated_files = ((getCurrentFiles walked).foldl (classifyStep fs year now)
      ⟨[], [], [], cache0.files⟩).updated_files ∧
    r.unchanged_files = ((getCurrentFiles walked).foldl (classifyStep fs year now)
      ⟨[], [], [], cache0.files⟩).unchanged_files ∧
    r.deleted_files = [] := by
  unfold scan_incremental at h
  cases hdl : deleteLoop (getCurrentFiles walked)
      (((getCurrentFiles walked).foldl (classifyStep fs year now)
        ⟨[], [], [], cache0.files⟩).cache.map Prod.fst)
      ((getCurrentFiles walked).foldl (classifyStep fs year now)
        ⟨[], [], [], cache0.files⟩).cache with
  | error e =>
      obtain ⟨k, cache1⟩ := e
      simp only [hdl] at h
      exact Except.noConfusion h
  | ok cache2 =>
      simp only [hdl] at h
      injection h with h2
      rw [← h2]
      exact ⟨rfl, rfl, rfl, rfl⟩
theorem apply_upserts_lookup_of_not_mem (p : String) :
    ∀ (ups : List UpsertRow) (ledger : List (String × UpsertRow)),
      (∀ u ∈ ups, u.file_path ≠ p) →
      (apply_upserts ledger ups).lookup p = ledger.lookup p := by
  intro ups
  induction ups with
  | nil => intro ledger _; rfl
  | cons u rest ih =>
      intro ledger h
      show (apply_upserts (setEntry ledger u.file_path u) rest).lookup p = ledger.lookup p
      rw [ih _ (fun u2 hu2 => h u2 (List.mem_cons_of_mem _ hu2))]
      exact lookup_setEntry_ne _ _ _ _ (fun he =>
        h u (List.mem_cons_self u rest) he.symm)

theorem countP_eq_le_one_of_nodup (p : String) :
    ∀ l : List String, l.Nodup → l.countP (fun x => decide (x = p)) ≤ 1 := by
  intro l
  induction l with
  | nil => intro _; simp
  | cons a t ih =>
      intro h
      rcases List.nodup_cons.mp h with ⟨hna, hnt⟩
      rw [List.countP_cons]
      by_cases he : a = p
      · have hz : t.countP (fun x => decide (x = p)) = 0 := by
          rw [List.countP_eq_zero]
          intro x hx
          simp only [decide_eq_true_eq]
          intro hxe
          exact hna ((hxe.trans he.symm) ▸ hx)
        simp [hz, he]
      · have h1 := ih hnt
        simp [he]
        omega

/-- C3 (corrected), counterexample: `f1` is in the pre-pass Cache Store and
still on disk (classified unchanged since its fingerprint matches), but all
its timestamps fall outside the scanner's current year, so the current-year
filter drops it from every bucket: the pass completes (no file vanished) and
`f1` appears in none of new, updated, unchanged, or deleted. -/
theorem c3_dropped_path_counterexample :
    "f1" ∈ cacheC3.files.map Prod.fst ∧
    "f1" ∈ (["f1"] : List String) ∧
    scan_incremental fsC3 2025 ⟨2025, 1⟩ ["f1"] cacheC3 = Except.ok resC3 ∧
    resC3.new_files = [] ∧ resC3.updated_files = [] ∧ resC3.unchanged_files = [] ∧
    resC3.deleted_files = [] :=
  ⟨by decide, by decide, rfl, rfl, rfl, rfl, rfl⟩

/-- C3 (amended): only passes in which every pre-pass cached path is still on
disk return a partition at all — any vanished cached path makes the deletion
loop raise `RuntimeError` mid-iteration (see C8) — so `deleted` is empty in
every returned partition. For a path-consistent pre-pass Cache Store, a
pre-pass cached path appears in a returned partition in at most one bucket:
never in `deleted` or `new`, at most once across `updated`/`unchanged`, and
possibly in no bucket at all, when the current-year filter rejects it or its
stat fails. -/
theorem c3_partition_amended (fs : FS) (year : Int) (now : DT) (walked : List String)
    (cache0 : CacheData) (hwf : ∀ kv ∈ cache0.files, kv.2.file_path = kv.1)
    (p : String) (hp : p ∈ cache0.files.map Prod.fst) :
    (p ∉ walked →
      ∃ e : ScanCrash, scan_incremental fs year now walked cache0 = Except.error e) ∧
    (∀ r : ScanResult, scan_incremental fs year now walked cache0 = Except.ok r →
      r.deleted_files = [] ∧
      (∀ i ∈ r.new_files, i.file_path ≠ p) ∧
      (r.new_files ++ r.updated_files ++ r.unchanged_files).countP
        (fun i => decide (i.file_path = p)) ≤ 1) := by
  constructor
  · intro hnw
    obtain ⟨e, he, _, _⟩ := scan_error_of_vanished fs year now walked cache0 p hp hnw
    exact ⟨e, he⟩
  · intro r hok
    obtain ⟨hn, hu, hc, hd⟩ := scan_ok_fields fs year now walked cache0 r hok
    have hp0 : p ∈ (⟨[], [], [], cache0.files⟩ : ScanAcc).cache.map Prod.fst := hp
    have hwf0 : ∀ kv ∈ (⟨[], [], [], cache0.files⟩ : ScanAcc).cache, kv.2.file_path = kv.1 :=
      hwf
    refine ⟨hd, ?_, ?_⟩
    · rw [hn]
      exact new_files_classify_fold fs year now p (getCurrentFiles walked)
        ⟨[], [], [], cache0.files⟩ hp0 (fun i hi => absurd hi (List.not_mem_nil i))
    · rw [hn, hu, hc]
      have hcnt := bucketPathCount_classify_fold fs year now p (getCurrentFiles walked)
        ⟨[], [], [], cache0.files⟩ hwf0
      have hcnt0 : bucketPathCount (⟨[], [], [], cache0.files⟩ : ScanAcc) p = 0 := rfl
      have hone := countP_eq_le_one_of_nodup p (getCurrentFiles walked)
        (nodup_getCurrentFiles walked)
      have hle : bucketPathCount ((getCurrentFiles walked).foldl (classifyStep fs year now)
          ⟨[], [], [], cache0.files⟩) p ≤ 1 := by omega
      exact hle

/-- C3 witness: the amended partition facts applied to the concrete
deletion-free pass over `fsC3`, which returns exactly `resC3`. -/
theorem c3_partition_amended_witness :
    (∀ kv ∈ cacheC3.files, kv.2.file_path = kv.1) ∧
    "f1" ∈ cacheC3.files.map Prod.fst ∧
    (resC3.deleted_files = [] ∧
      (∀ i ∈ resC3.new_files, i.file_path ≠ "f1") ∧
      (resC3.new_files ++ resC3.updated_files ++ resC3.unchanged_files).countP
        (fun i => decide (i.file_path = "f1")) ≤ 1) :=
  ⟨by decide, by decide,
    (c3_partition_amended fsC3 2025 ⟨2025, 1⟩ ["f1"] cacheC3 (by decide) "f1"
      (by decide)).2 resC3 rfl⟩

/-- C8 (code_bug): the claim — and the spec's deletion scenario — require a
pass that classifies a vanished file as deleted to complete, removing the
path from the Cache Store and leaving its Ledger row untouched. The code
instead mutates the dict it is iterating: the deletion loop appends the
first vanished path, removes it, and then CPython raises
`RuntimeError: dictionary changed size during iteration`, which propagates
out of `scan_incremental` before `_update_database_versions` or `save_cache`
can run. This theorem evaluates the code on such inputs: whenever some
pre-pass cached path is no longer among the walked files, the pass raises;
the crash's one classified-deleted path is gone from the in-memory table and
was never the subject of a ledger upsert (none are issued on this path). -/
theorem c8_deletion_raises (fs : FS) (year : Int) (now : DT) (walked : List String)
    (cache0 : CacheData) (p : String) (hp : p ∈ cache0.files.map Prod.fst)
    (hnw : p ∉ walked) :
    ∃ e : ScanCrash, scan_incremental fs year now walked cache0 = Except.error e ∧
      e.first_deleted ∉ walked ∧ e.cache.lookup e.first_deleted = none :=
  scan_error_of_vanished fs year now walked cache0 p hp hnw

/-- C8 witness: the spec's own deletion scenario — `f2` cached but gone from
disk — on which the pass raises with `f2` classified deleted and already
removed from the in-memory table, instead of returning `deleted = [f2]`. -/
theorem c8_deletion_raises_witness :
    "f2" ∈ cacheC8.files.map Prod.fst ∧
    "f2" ∉ ([] : List String) ∧
    scan_incremental fsEmpty 2025 ⟨2025, 2⟩ [] cacheC8 = Except.error ⟨"f2", []⟩ ∧
    (∃ e : ScanCrash, scan_incremental fsEmpty 2025 ⟨2025, 2⟩ [] cacheC8 = Except.error e ∧
      e.first_deleted ∉ ([] : List String) ∧ e.cache.lookup e.first_deleted = none) :=
  ⟨by decide, by decide, rfl,
    c8_deletion_raises fsEmpty 2025 ⟨2025, 2⟩ [] cacheC8 "f2" (by decide) (by decide)⟩
